import Mathlib

/-!
Verification development for the reflow repository: the EC2 instance-type
selector and launch state machine (ec2cluster/instance.go), the spot launch
path, and the dynamodb-backed task store (taskdb/dynamodbtask/dynamodb.go).

Modelling conventions:
* Go float64 prices, throughputs and resource amounts are modelled as `Rat`.
* Go time.Time / time.Duration are modelled as `Int` (seconds); a date bucket
  is the floor division of a time by 86400.  The RFC3339 serialization of UTC
  times is order-isomorphic to the times themselves, so serialized values are
  modelled by the underlying numbers.
* Go maps with zero-value-on-miss semantics are modelled as association lists
  with a defaulting lookup.
-/

namespace Reflow

/-- Association-list lookup used to model Go map reads. -/
def alook (u : List (String × Int)) (k : String) : Option Int :=
  (u.find? (fun p => p.1 = k)).map (fun p => p.2)

/-- Go map write: supersedes any previous entry for the key. -/
def aset (u : List (String × Int)) (k : String) (v : Int) : List (String × Int) :=
  (k, v) :: u.filter (fun p => ¬(p.1 = k))

/-- Modelled from the spec: reflow.Resources (package reflow is not under
src/).  A resource vector maps resource names (cpu, mem, feature flags) to
non-negative scalars; missing entries read as zero, as in a Go map. -/
abbrev Resources := List (String × ℚ)

/-- Read one component of a resource vector; missing keys give the Go map
zero value. -/
def rget (r : Resources) (k : String) : ℚ :=
  ((r.find? (fun p => p.1 = k)).map (fun p => p.2)).getD 0

/-- Modelled from the spec: `(reflow.Resources).Available` (not under src/).
Vector a satisfies requirement b iff every component of a is at least the
corresponding component of b. -/
def Resources.availableB (a b : Resources) : Bool :=
  b.all (fun kv => decide (kv.2 ≤ rget a kv.1))

/-- instanceConfig from ec2cluster/instance.go: an EC2 instance type after
the memory discount, with derived launch fields. -/
structure InstanceConfig where
  ctype : String
  ebsOptimized : Bool
  ebsThroughput : ℚ
  resources : Resources
  price : List (String × ℚ)
  spotOk : Bool
  nvme : Bool
deriving DecidableEq, Repr

/-- The Go zero value of instanceConfig (value of `best` before any candidate
is selected). -/
def zeroConfig : InstanceConfig :=
  { ctype := "", ebsOptimized := false, ebsThroughput := 0, resources := [],
    price := [], spotOk := false, nvme := false }

/-- instanceState from ec2cluster/instance.go: the catalog of configurations
plus the mutable unavailability map (type name to mark time). -/
structure InstanceState where
  configs : List InstanceConfig
  sleepTime : Int
  region : String
  unavailable : List (String × Int)
deriving Repr

/-- ebsThroughputPremiumCost: the absolute USD premium tolerated for better
EBS throughput. -/
def ebsThroughputPremiumCost : ℚ := 3 / 100

/-- ebsThroughputPremiumPct: the relative premium (percent) tolerated. -/
def ebsThroughputPremiumPct : ℚ := 15

/-- ebsThroughputBenefitPct: the percent throughput increase required to pay
the premium. -/
def ebsThroughputBenefitPct : ℚ := 50

/-- `(s *instanceState) Unavailable(config)`: record the mark time for the
config type. -/
def markUnavailable (s : InstanceState) (c : InstanceConfig) (now : Int) :
    InstanceState :=
  { s with unavailable := aset s.unavailable c.ctype now }

/-- The guard `time.Since(s.unavailable[config.Type]) < s.sleepTime`: a
missing map entry reads as the zero time (0 here); the instance is skipped
when the mark is within the sleep window. -/
def recentlyUnavailable (s : InstanceState) (now : Int) (typ : String) : Bool :=
  decide (now - ((alook s.unavailable typ).getD 0) < s.sleepTime)

/-- The candidate filter shared by MaxAvailable and MinAvailable: not in the
sleep window, spot-eligible when spot is requested, and resource-sufficient. -/
def isCandidate (s : InstanceState) (need : Resources) (spot : Bool)
    (now : Int) (c : InstanceConfig) : Bool :=
  !(recentlyUnavailable s now c.ctype) && !(spot && !c.spotOk) &&
    Resources.availableB c.resources need

/-- Region price lookup, `config.Price[s.region]`. -/
def priceIn (region : String) (c : InstanceConfig) : Option ℚ :=
  ((c.price.find? (fun p => p.1 = region)).map (fun p => p.2))

/-- Region price with Go zero value on miss (`price = config.Price[s.region]`
after a failed comma-ok read leaves the zero value). -/
def priceOf (region : String) (c : InstanceConfig) : ℚ :=
  (priceIn region c).getD 0

/-- `(s *instanceState) Available(need)`. -/
def availableOp (s : InstanceState) (need : Resources) : Bool :=
  s.configs.any (fun c => Resources.availableB c.resources need)

/-- The MaxAvailable selection loop.  `acc.2 = none` models the initial
`distance = -math.MaxFloat64`; a first candidate always replaces it. -/
def maxScan (s : InstanceState) (need : Resources) (spot : Bool)
    (sd : Resources → Resources → ℚ) (now : Int) :
    List InstanceConfig → InstanceConfig × Option ℚ → InstanceConfig × Option ℚ
  | [], acc => acc
  | c :: rest, acc =>
    if isCandidate s need spot now c then
      match acc.2 with
      | none => maxScan s need spot sd now rest (c, some (sd c.resources need))
      | some dist =>
        if dist < sd c.resources need then
          maxScan s need spot sd now rest (c, some (sd c.resources need))
        else maxScan s need spot sd now rest acc
    else maxScan s need spot sd now rest acc

/-- `(s *instanceState) MaxAvailable(need, spot)`.  The delegated
`ScaledDistance` policy is the parameter `sd` (the spec requires only that it
is total and deterministic). -/
def maxAvailable (s : InstanceState) (need : Resources) (spot : Bool)
    (sd : Resources → Resources → ℚ) (now : Int) : InstanceConfig × Bool :=
  let r := maxScan s need spot sd now s.configs (zeroConfig, none)
  (r.1, Resources.availableB r.1.resources need)

/-- Price comparison against the running minimum; `none` models the initial
`bestPrice = math.MaxFloat64`. -/
def qltOpt (p : ℚ) (bp : Option ℚ) : Bool :=
  match bp with
  | none => true
  | some q => decide (p < q)

/-- First MinAvailable loop: select the cheapest candidate priced in the
region and collect the viable list (in encounter order). -/
def minScan (s : InstanceState) (need : Resources) (spot : Bool) (now : Int) :
    List InstanceConfig → InstanceConfig × Option ℚ × List InstanceConfig →
    InstanceConfig × Option ℚ × List InstanceConfig
  | [], acc => acc
  | c :: rest, acc =>
    if isCandidate s need spot now c then
      match priceIn s.region c with
      | none => minScan s need spot now rest acc
      | some p =>
        let viable := acc.2.2 ++ [c]
        if qltOpt p acc.2.1 then minScan s need spot now rest (c, some p, viable)
        else minScan s need spot now rest (acc.1, acc.2.1, viable)
    else minScan s need spot now rest acc

/-- The premium condition of the first adjustment rule:
`price < bestPrice+ebsThroughputPremiumCost ||
 price < bestPrice*(1+ebsThroughputPremiumPct/100)`. -/
def premiumOk (p : ℚ) (bp : Option ℚ) : Bool :=
  match bp with
  | none => true
  | some q =>
    decide (p < q + ebsThroughputPremiumCost) ||
      decide (p < q * (1 + ebsThroughputPremiumPct / 100))

/-- The throughput condition of the first adjustment rule:
`config.EBSThroughput > best.EBSThroughput*(1+ebsThroughputBenefitPct/100)`. -/
def benefitOk (c best : InstanceConfig) : Bool :=
  decide (best.ebsThroughput * (1 + ebsThroughputBenefitPct / 100) <
    c.ebsThroughput)

/-- The guard of the first adjustment rule (`!found && (...) && (...)`). -/
def fireGuard (region : String) (c : InstanceConfig)
    (acc : InstanceConfig × Option ℚ × Bool) : Bool :=
  !acc.2.2 && premiumOk (priceOf region c) acc.2.1 && benefitOk c acc.1

/-- One iteration of the second MinAvailable loop over `(best, bestPrice,
found)`: the first rule adopts a reasonably more expensive config with much
better EBS throughput and sets `found`; the second rule then adopts a
cheaper config with at least the current throughput. -/
def adjustStep (region : String) (c : InstanceConfig)
    (acc : InstanceConfig × Option ℚ × Bool) :
    InstanceConfig × Option ℚ × Bool :=
  let p := priceOf region c
  let s1 : InstanceConfig × Option ℚ × Bool :=
    if fireGuard region c acc then (c, some p, true) else acc
  if s1.2.2 && qltOpt p s1.2.1 &&
      decide (s1.1.ebsThroughput ≤ c.ebsThroughput) then (c, some p, s1.2.2)
  else s1

/-- The second MinAvailable loop over the viable list. -/
def adjust (region : String) :
    List InstanceConfig → InstanceConfig × Option ℚ × Bool →
    InstanceConfig × Option ℚ × Bool
  | [], acc => acc
  | c :: rest, acc => adjust region rest (adjustStep region c acc)

/-- Number of first-rule adoptions along the second MinAvailable loop. -/
def adjustFires (region : String) :
    List InstanceConfig → InstanceConfig × Option ℚ × Bool → Nat
  | [], _ => 0
  | c :: rest, acc =>
    (if fireGuard region c acc then 1 else 0) +
      adjustFires region rest (adjustStep region c acc)

/-- `(s *instanceState) MinAvailable(need, spot)`. -/
def minAvailable (s : InstanceState) (need : Resources) (spot : Bool)
    (now : Int) : InstanceConfig × Bool :=
  let pr := minScan s need spot now s.configs (zeroConfig, none, [])
  let r := adjust s.region pr.2.2 (pr.1, pr.2.1, false)
  (r.1, Resources.availableB r.1.resources need)

/-- `(s *instanceState) Type(typ)`. -/
def typeOp (s : InstanceState) (typ : String) (now : Int) :
    InstanceConfig × Bool :=
  if recentlyUnavailable s now typ then (zeroConfig, false)
  else
    match s.configs.find? (fun c => c.ctype = typ) with
    | some c => (c, true)
    | none => (zeroConfig, false)

/-! ## The launch state machine `(*instance).Go` -/

/-- Modelled from the spec: error kinds of the reflow errors package (not
under src/): Temporary, Timeout, Unavailable, Fatal, NotExist, Net, plus a
catch-all for unclassified kinds. -/
inductive ErrKind
  | fatal | unavailable | temporary | timeout | net | other
deriving DecidableEq, Repr

/-- An error value as seen by the Go retry loop: a raw AWS SDK error carrying
a code (satisfying the `awserr.Error` type assertion), a reflow
`*errors.Error` carrying a kind (produced by `errors.E`), or a plain error
(fmt.Errorf / errors.New / context errors). -/
inductive GoErr
  | aws (code : String)
  | kinded (k : ErrKind)
  | plain
deriving DecidableEq, Repr

/-- Modelled from the spec: `errors.Is(errors.Net, err)` holds only for a
reflow error of kind Net. -/
def GoErr.isNet : GoErr → Bool
  | .kinded .net => true
  | _ => false

/-- The EC2 error codes that indicate capacity exhaustion. -/
def capacityCodes : List String :=
  ["InsufficientCapacity", "InsufficientInstanceCapacity",
   "InsufficientHostCapacity", "InsufficientReservedInstanceCapacity",
   "InstanceLimitExceeded"]

/-- The reclassification applied to `i.err` before dispatch: a raw AWS error
with a capacity-exhaustion code becomes `errors.E(errors.Unavailable, ...)`;
wrapped or plain errors are left alone (they do not satisfy the `awserr`
type assertion). -/
def reclass : GoErr → GoErr
  | .aws c => if c ∈ capacityCodes then .kinded .unavailable else .aws c
  | e => e

/-- Dispatch: `errors.Is(errors.Fatal, err)` or
`errors.Is(errors.Unavailable, err)` abort the launch; every other error
(Temporary, Timeout, Net, unknown, raw AWS, plain) takes the backoff path. -/
def isAbort : GoErr → Bool
  | .kinded .fatal => true
  | .kinded .unavailable => true
  | _ => false

/-- An `ec2.Instance` as used by the loop: public DNS name and tags. -/
structure Ec2Inst where
  publicDnsName : Option String
  tags : List (String × String)
deriving DecidableEq, Repr

/-- `(*reflowletInstance).update`: scan the tags for reflowlet:version and
reflowlet:digest, stopping once both are populated. -/
def riScan : List (String × String) → String → String → String × String
  | [], v, d => (v, d)
  | (k, val) :: rest, v, d =>
    let v := if k = "reflowlet:version" then val else v
    let d := if k = "reflowlet:digest" then val else d
    if d ≠ "" ∧ v ≠ "" then (v, d) else riScan rest v d

/-- maxTries from `(*instance).Go`. -/
def maxTries : Nat := 5

/-- State index constants mirroring the stateT enumeration. -/
def stateCapacity : Nat := 0
def stateLaunch : Nat := 1
def stateTag : Nat := 2
def stateWaitInstance : Nat := 3
def stateDescribeDns : Nat := 4
def stateWaitReflowlet : Nat := 5
def stateDescribeTags : Nat := 6
def stateUpdateImage : Nat := 7
def stateDone : Nat := 8

/-- The environment of one launch: the instance parameters plus oracles for
every I/O performed by the loop, indexed by the loop iteration.  Digests are
abstracted as naturals; `imageDigest` is the controller-local embedded-image
digest (none models a digest computation error) and `parseDigest` is
`digest.Parse` on tag values. -/
structure GoEnv where
  spot : Bool
  spotProbeDepth : Nat
  capacity : Nat → Bool × Option GoErr
  launch : Nat → Except GoErr String
  tag : Nat → Option GoErr
  waitInstance : Nat → Option GoErr
  describeDns : Nat → Except GoErr Ec2Inst
  waitNew : Nat → Option GoErr
  waitCfg : Nat → Option GoErr
  connRefused : Nat → Bool
  describeTags : Nat → Except GoErr Ec2Inst
  imageDigest : Option Nat
  parseDigest : String → Option Nat
  updNew : Nat → Option GoErr
  cfgInstance : Nat → Option GoErr
  upload : Nat → Option GoErr
  install : Nat → Option GoErr

/-- The mutable state of one run of `(*instance).Go`: loop variables
(state, id, dns, n, d), the shared error slot, the described instance, plus
an iteration counter for the oracles and two observation traces (states
attempted, backoff sleeps in seconds). -/
structure MachSt where
  st : Nat
  id : String
  dns : String
  n : Nat
  d : Nat
  err : Option GoErr
  inst : Option Ec2Inst
  iter : Nat
  attempts : List Nat
  sleeps : List Nat
deriving DecidableEq, Repr

/-- The initial loop state: state Capacity, retry counter 0, backoff 5 s. -/
def mkInit : MachSt :=
  { st := 0, id := "", dns := "", n := 0, d := 5, err := none, inst := none,
    iter := 0, attempts := [], sleeps := [] }

/-- One step result: the loop continues, or the function returns / the loop
breaks. -/
inductive StepRes
  | next (m : MachSt)
  | stop (m : MachSt)
deriving DecidableEq, Repr

/-- The common tail of each loop iteration: on success reset the retry
budget and advance the state; on failure break after maxTries retries,
reclassify capacity codes, return on Fatal/Unavailable, otherwise sleep d,
double d and retry the same state. -/
def epilogue (m : MachSt) : StepRes :=
  match m.err with
  | none =>
    .next { m with n := 0, d := 5, st := m.st + 1, iter := m.iter + 1 }
  | some e =>
    if m.n = maxTries then .stop m
    else
      let e := reclass e
      if isAbort e then .stop { m with err := some e }
      else
        .next { m with
                err := some e, n := m.n + 1, d := 2 * m.d,
                iter := m.iter + 1, sleeps := m.sleeps ++ [m.d] }

/-- One iteration of the `(*instance).Go` loop body (the switch followed by
the retry logic), one branch per state as in the source switch.  The
UpdateImage success path resets the state to WaitReflowlet and `continue`s,
skipping the epilogue. -/
def goStep (env : GoEnv) (m : MachSt) : StepRes :=
  if m.st = 0 then
    if env.spot && decide (env.spotProbeDepth ≠ 0) then
      let r := env.capacity m.iter
      let err : Option GoErr :=
        match r.2 with
        | some e => some e
        | none => if r.1 then none else some (.kinded .unavailable)
      epilogue { m with err := err }
    else epilogue m
  else if m.st = 1 then
    match env.launch m.iter with
    | .ok id => epilogue { m with id := id, err := none }
    | .error e => epilogue { m with err := some e }
  else if m.st = 2 then epilogue { m with err := env.tag m.iter }
  else if m.st = 3 then epilogue { m with err := env.waitInstance m.iter }
  else if m.st = 4 then
    match env.describeDns m.iter with
    | .error e => epilogue { m with err := some e }
    | .ok inst =>
      match inst.publicDnsName with
      | none => epilogue { m with inst := some inst, err := some .plain }
      | some sdns =>
        if sdns = "" then
          epilogue { m with inst := some inst, err := some .plain }
        else epilogue { m with inst := some inst, dns := sdns, err := none }
  else if m.st = 5 then
    match env.waitNew m.iter with
    | some _ => epilogue { m with err := some (.kinded .fatal) }
    | none =>
      match env.waitCfg m.iter with
      | some e =>
        epilogue { m with
                   err := some (if env.connRefused m.iter then
                     GoErr.kinded .temporary else e) }
      | none => epilogue { m with err := none }
  else if m.st = 6 then
    match env.describeTags m.iter with
    | .error _ => epilogue { m with err := some (.kinded .temporary) }
    | .ok inst =>
      if (riScan inst.tags "" "").1 = "" ∨ (riScan inst.tags "" "").2 = ""
      then
        epilogue { m with inst := some inst, err := some (.kinded .temporary) }
      else
        match env.imageDigest with
        | none =>
          epilogue { m with inst := some inst, err := some (.kinded .fatal) }
        | some loc =>
          match env.parseDigest (riScan inst.tags "" "").2 with
          | none =>
            epilogue { m with inst := some inst, err := some (.kinded .fatal) }
          | some rem =>
            if rem = loc then
              epilogue { m with inst := some inst, err := none, st := 8 }
            else epilogue { m with inst := some inst, err := none }
  else if m.st = 7 then
    match env.updNew m.iter with
    | some _ => epilogue { m with err := some (.kinded .fatal) }
    | none =>
      match env.cfgInstance m.iter with
      | some _ => epilogue { m with err := some (.kinded .fatal) }
      | none =>
        match env.upload m.iter with
        | some _ => epilogue { m with err := some (.kinded .fatal) }
        | none =>
          match env.install m.iter with
          | some e =>
            if e.isNet then .next { m with st := 5, iter := m.iter + 1 }
            else epilogue { m with err := some (.kinded .fatal) }
          | none => .next { m with st := 5, iter := m.iter + 1 }
  else .stop m

/-- The result of running the loop to completion within the given fuel. -/
inductive RunRes
  | ok (m : MachSt)
  | outOfFuel (m : MachSt)
deriving DecidableEq, Repr

/-- The `for state < stateDone` loop (context cancellation is not modelled;
the claims considered condition on a nil final error, which on the Go side
already excludes cancelled runs).  Each iteration records the attempted
state. -/
def goLoop (env : GoEnv) : Nat → MachSt → RunRes
  | 0, m => .outOfFuel m
  | fuel + 1, m =>
    if stateDone ≤ m.st then .ok m
    else
      match goStep env { m with attempts := m.attempts ++ [m.st] } with
      | .stop m1 => .ok m1
      | .next m1 => goLoop env fuel m1

/-- Final state of a run regardless of how it ended. -/
def finalOf : RunRes → MachSt
  | .ok m => m
  | .outOfFuel m => m

/-- Whether the run terminated (the Go function returned). -/
def runDone : RunRes → Bool
  | .ok _ => true
  | .outOfFuel _ => false

/-- The success postcondition claimed for `(*instance).Go`: the described
instance carries a non-empty version tag and a digest tag that parses to the
controller-local image digest. -/
def GoPost (env : GoEnv) (m : MachSt) : Prop :=
  ∃ inst loc, m.inst = some inst ∧ env.imageDigest = some loc ∧
    (riScan inst.tags "" "").1 ≠ "" ∧
    env.parseDigest (riScan inst.tags "" "").2 = some loc

/-- The loop invariant for `(*instance).Go`: whenever the state has reached
Done with a clear error slot, the success postcondition holds. -/
def GoInv (env : GoEnv) (m : MachSt) : Prop :=
  stateDone ≤ m.st → m.err = none → GoPost env m

/-! ## The spot launch path `(*instance).ec2RunSpotInstance` -/

/-- The `%.3f` formatting of the spot bid: the price rounded to three
decimal places (Mathlib `round` resolves exact halves upward; the difference
from the float-formatting tie rule does not affect any value used here). -/
def round3 (q : ℚ) : ℚ := ((round (q * 1000) : ℤ) : ℚ) / 1000

/-- The fields of the spot instance request relevant to the claims. -/
structure SpotParams where
  validUntil : Int
  spotPrice : ℚ
  instanceType : String
  imageId : String
deriving DecidableEq, Repr

/-- The launch-relevant fields of the instance record. -/
structure SpotInst where
  price : ℚ
  ctype : String
  ami : String
deriving DecidableEq, Repr

/-- The environment of a spot launch: clock, the EC2 spot request call, the
per-poll status codes of the spot request, the poll index at which the
1 min 10 s context deadline hits, and the final describe call. -/
structure SpotEnv where
  now : Int
  requestSpot : SpotParams → Except GoErr (List String)
  statusCodes : Nat → List String
  ctxDeadlinePoll : Nat
  describeSpot : String → Except GoErr (List (Option String))

/-- `RequestSpotInstancesInput`: bid `fmt.Sprintf("%.3f", i.Price)` and
`ValidUntil: time.Now().Add(time.Minute)`. -/
def mkSpotParams (i : SpotInst) (now : Int) : SpotParams :=
  { validUntil := now + 60, spotPrice := round3 i.price,
    instanceType := i.ctype, imageId := i.ami }

/-- Waiter acceptor: success iff every status code is `fulfilled`, or every
status code is `request-canceled-and-instance-running` (PathAll matches
require a non-empty result). -/
def spotSuccess (cs : List String) : Bool :=
  (!cs.isEmpty && cs.all (fun c => c = "fulfilled")) ||
    (!cs.isEmpty && cs.all (fun c => c = "request-canceled-and-instance-running"))

/-- The terminal-failure status codes of the waiter (each a PathAny
acceptor). -/
def spotFailureCodes : List String :=
  ["schedule-expired", "canceled-before-fulfillment", "bad-parameters",
   "system-error"]

/-- Waiter failure: some status code is a terminal-failure code. -/
def spotFailure (cs : List String) : Bool :=
  cs.any (fun c => c ∈ spotFailureCodes)

/-- Outcome of waiting for spot fulfillment. -/
inductive WaitSpotRes
  | ok | failed | ctxDone | exhausted
deriving DecidableEq, Repr

/-- One waiter round: give up when the context deadline passed, otherwise
poll and apply the acceptors in order (success first, then failure, then
retry). -/
def waitSpotAux (env : SpotEnv) : Nat → Nat → WaitSpotRes
  | 0, _ => .exhausted
  | fuel + 1, k =>
    if env.ctxDeadlinePoll ≤ k then .ctxDone
    else
      let cs := env.statusCodes k
      if spotSuccess cs then .ok
      else if spotFailure cs then .failed
      else waitSpotAux env fuel (k + 1)

/-- `(*instance).ec2WaitForSpotFulfillment`: the SDK waiter with
MaxAttempts 40. -/
def ec2WaitForSpotFulfillment (env : SpotEnv) : WaitSpotRes :=
  waitSpotAux env 40 0

/-- `(*instance).ec2RunSpotInstance`: issue the spot request, wait for
fulfillment (any wait failure is surfaced as an Unavailable error), then
describe the request to obtain the instance id.  The first component records
the request parameters that were sent. -/
def ec2RunSpotInstance (env : SpotEnv) (i : SpotInst) :
    SpotParams × Except GoErr String :=
  let params := mkSpotParams i env.now
  (params,
    match env.requestSpot params with
    | .error e => .error e
    | .ok reqids =>
      match reqids with
      | [reqid] =>
        if reqid = "" then .error .plain
        else
          match ec2WaitForSpotFulfillment env with
          | .ok =>
            match env.describeSpot reqid with
            | .error e => .error e
            | .ok ids =>
              match ids with
              | [some id] => if id = "" then .error .plain else .ok id
              | [none] => .error .plain
              | _ => .error .plain
          | _ => .error (.kinded .unavailable)
      | _ => .error .plain)

/-! ## The dynamodb task store -/

/-- A dynamodb attribute value as used by the task store: a string, a
serialized UTC time, a serialized date bucket, or a string set.  Times and
dates are modelled by their underlying numbers; the fixed-layout RFC3339
serialization of UTC times is order-isomorphic to the times, so the
string comparison `Keepalive > :ka` is modelled by integer comparison. -/
inductive AttrVal
  | s (v : String)
  | time (t : Int)
  | date (d : Int)
  | ss (v : List String)
deriving DecidableEq, Repr

/-- One dynamodb item. -/
abbrev Row := List (String × AttrVal)

/-- The table contents. -/
abbrev Table := List Row

/-- Read one attribute of an item. -/
def rattr (r : Row) (k : String) : Option AttrVal :=
  (r.find? (fun p => p.1 = k)).map (fun p => p.2)

/-- The primary key of an item. -/
def rowId (r : Row) : Option String :=
  match rattr r "ID" with
  | some (.s v) => some v
  | _ => none

/-- `date(t)`: truncate a time to its UTC day bucket. -/
def dateOf (t : Int) : Int := t / 86400

/-- Set one attribute of an item. -/
def rset (r : Row) (k : String) (v : AttrVal) : Row :=
  (k, v) :: r.filter (fun p => ¬(p.1 = k))

/-- dynamodb PutItem: unconditionally replace the item with the same primary
key. -/
def putItem (tbl : Table) (row : Row) : Table :=
  row :: tbl.filter (fun r => ¬(rowId r = rowId row))

/-- dynamodb UpdateItem with a SET expression: update every attribute in one
operation on the keyed item; when no such item exists the update creates
one holding only the key and the set attributes. -/
def updateRows (tbl : Table) (id : String) (sets : List (String × AttrVal)) :
    Table :=
  if tbl.any (fun r => rowId r = some id) then
    tbl.map (fun r =>
      if rowId r = some id then
        sets.foldl (fun r kv => rset r kv.1 kv.2) r
      else r)
  else tbl ++ [sets.foldl (fun r kv => rset r kv.1 kv.2) [("ID", .s id)]]

/-- `(*TaskDB).CreateRun`: unconditional put of a fresh run row.  Digests are
modelled by their hex strings; `HexN(4)` is the 4-character prefix. -/
def createRun (tbl : Table) (id : String) (labels : List String)
    (user : String) (now : Int) : Table :=
  putItem tbl
    [("ID", .s id), ("ID4", .s (id.take 4)), ("Labels", .ss labels),
     ("User", .s user), ("Type", .s "run"), ("StartTime", .time now)]

/-- `(*TaskDB).CreateTask`: unconditional put of a fresh task row (note: no
Keepalive attribute is written). -/
def createTask (tbl : Table) (id runid flowid uri : String)
    (labels : List String) (now : Int) : Table :=
  putItem tbl
    [("ID", .s id), ("ID4", .s (id.take 4)), ("RunID", .s runid),
     ("RunID4", .s (runid.take 4)), ("FlowID", .s flowid),
     ("Type", .s "task"), ("StartTime", .time now), ("URI", .s uri),
     ("Labels", .ss labels)]

/-- `(*TaskDB).SetTaskResult`. -/
def setTaskResult (tbl : Table) (id result : String) : Table :=
  updateRows tbl id [("ResultID", .s result)]

/-- `(*TaskDB).SetTaskAttrs`. -/
def setTaskAttrs (tbl : Table) (id stdout stderr inspect : String) : Table :=
  updateRows tbl id
    [("Stdout", .s stdout), ("Stderr", .s stderr), ("Inspect", .s inspect)]

/-- The SET clauses of the single Keepalive update: `Keepalive = :ka` and
`#Date = :date` together. -/
def keepaliveSets (t : Int) : List (String × AttrVal) :=
  [("Keepalive", .time t), ("Date", .date (dateOf t))]

/-- `(*TaskDB).Keepalive`: one UpdateItem writing both attributes. -/
def keepaliveOp (tbl : Table) (id : String) (t : Int) : Table :=
  updateRows tbl id (keepaliveSets t)

/-- `dates(beg, end)`: the day buckets from date(beg) to date(end)
inclusive; empty when date(end) is before date(beg). -/
def dates (beg endd : Int) : List Int :=
  (List.range ((dateOf endd - dateOf beg + 1).toNat)).map
    (fun (k : Nat) => dateOf beg + (k : Int))

/-- taskdb.Query as used by buildQueries: `none` models zero-valued
fields. -/
structure TQuery where
  id : Option String
  idAbbrev : Bool
  runId : Option String
  since : Option Int
  user : String
deriving DecidableEq, Repr

/-- The key-condition expression of a built query.  `unset` is the
fallthrough case in which the `keyExpression` string variable is never
assigned and the query is built with an empty key-condition expression. -/
inductive KeyCond
  | unset
  | dateKa (d : Int) (ka : Int)
  | idEq (id : String)
  | id4Eq (id4 : String)
  | runIdEq (rid : String)
deriving DecidableEq, Repr

/-- One built dynamodb.QueryInput: target index, key condition, and the
optional filter expressions. -/
structure QueryInput where
  index : String
  keyCond : KeyCond
  filterUser : Option String
  filterType : Option String
deriving DecidableEq, Repr

/-- `(*TaskDB).buildIdQuery`: point lookup on the ID index, or abbreviation
lookup on the ID4-ID index; both filter on `#Type = :type`. -/
def buildIdQuery (q : TQuery) (typ : String) : List QueryInput :=
  match q.id with
  | some idv =>
    if q.idAbbrev then
      [{ index := "ID4-ID-index", keyCond := .id4Eq (idv.take 4),
         filterUser := none, filterType := some typ }]
    else
      [{ index := "ID-index", keyCond := .idEq idv,
         filterUser := none, filterType := some typ }]
  | none => []

/-- `(*TaskDB).buildRunIdQuery`: all tasks of one run, no filters. -/
def buildRunIdQuery (rid : String) : List QueryInput :=
  [{ index := "RunID-index", keyCond := .runIdEq rid,
     filterUser := none, filterType := none }]

/-- `(*TaskDB).buildQueries`: id queries take the id path; a run query with
a RunID panics (`none`); otherwise one Date-Keepalive query per day bucket
between date(since) and date(now), with user and (for runs) type filters.
When the bucket list is empty the function falls through and builds a single
query whose key-condition expression was never assigned. -/
def buildQueries (q : TQuery) (typ : String) (now : Int) :
    Option (List QueryInput) :=
  if q.id ≠ none then some (buildIdQuery q typ)
  else if q.runId ≠ none ∧ typ = "run" then none
  else
    match q.since with
    | none => none
    | some since =>
      let fu : Option String := if q.user = "" then none else some q.user
      let ft : Option String := if typ = "run" then some "run" else none
      let bs := (dates since now).map (fun d =>
        { index := "Date-Keepalive-index", keyCond := KeyCond.dateKa d since,
          filterUser := fu, filterType := ft })
      if bs.isEmpty then
        some [{ index := "Date-Keepalive-index", keyCond := KeyCond.unset,
                filterUser := fu, filterType := ft }]
      else some bs

/-- Evaluation of a key condition against an item.  The unassigned (empty)
key-condition expression matches nothing (the real service rejects the
request). -/
def matchKey (r : Row) : KeyCond → Bool
  | .unset => false
  | .dateKa d ka =>
    decide (rattr r "Date" = some (.date d)) &&
      (match rattr r "Keepalive" with
       | some (.time t) => decide (ka < t)
       | _ => false)
  | .idEq v => decide (rattr r "ID" = some (.s v))
  | .id4Eq v => decide (rattr r "ID4" = some (.s v))
  | .runIdEq v => decide (rattr r "RunID" = some (.s v))

/-- Evaluation of the filter expressions against an item. -/
def matchFilters (r : Row) (qi : QueryInput) : Bool :=
  (match qi.filterUser with
   | none => true
   | some u => decide (rattr r "User" = some (.s u))) &&
  (match qi.filterType with
   | none => true
   | some ty => decide (rattr r "Type" = some (.s ty)))

/-- Rows returned by one query. -/
def evalQuery (tbl : Table) (qi : QueryInput) : List Row :=
  tbl.filter (fun r => matchKey r qi.keyCond && matchFilters r qi)

/-- Rows returned by a query batch, merged. -/
def evalQueries (tbl : Table) (qis : List QueryInput) : List Row :=
  (qis.map (evalQuery tbl)).flatten

/-- `(*TaskDB).Tasks` at the query layer: RunID queries use the RunID
index, anything else goes through buildQueries with the task type. -/
def tasksOp (tbl : Table) (q : TQuery) (now : Int) : Option (List Row) :=
  match q.runId with
  | some rid => some (evalQueries tbl (buildRunIdQuery rid))
  | none => (buildQueries q "task" now).map (evalQueries tbl)

/-- `(*TaskDB).Runs` at the query layer. -/
def runsOp (tbl : Table) (q : TQuery) (now : Int) : Option (List Row) :=
  (buildQueries q "run" now).map (evalQueries tbl)

/-- The claimed row invariant: ID4 is the 4-character prefix of ID, and the
keepalive time is at least the start time (attributes read only when
present). -/
def RowInv (r : Row) : Prop :=
  (∀ i4 idv, rattr r "ID4" = some (.s i4) → rattr r "ID" = some (.s idv) →
    i4 = idv.take 4) ∧
  (∀ ka st, rattr r "Keepalive" = some (.time ka) →
    rattr r "StartTime" = some (.time st) → st ≤ ka)

/-- The invariant of the first MinAvailable loop: before any priced
candidate is seen the accumulator is untouched; afterwards the accumulated
best is a viable entry of minimal region price, and the stored price is its
price. -/
def MinInv (region : String)
    (acc : InstanceConfig × Option ℚ × List InstanceConfig) : Prop :=
  (acc.2.1 = none → acc.1 = zeroConfig ∧ acc.2.2 = []) ∧
  (∀ q, acc.2.1 = some q → q = priceOf region acc.1 ∧ acc.1 ∈ acc.2.2 ∧
    ∀ w ∈ acc.2.2, q ≤ priceOf region w)

/-! ## Concrete fixtures -/

/-- A trivial scaled-distance policy (the spec only requires totality and
determinism). -/
def sd0 : Resources → Resources → ℚ := fun _ _ => 0

/-- Scenario config A: 4 cpu, 16 GiB, \$0.20, 100 MB/s EBS. -/
def cfgA : InstanceConfig :=
  { ctype := "a", ebsOptimized := true, ebsThroughput := 100,
    resources := [("cpu", 4), ("mem", 16)], price := [("r", 1 / 5)],
    spotOk := true, nvme := false }

/-- Scenario config B: 4 cpu, 16 GiB, \$0.22, 200 MB/s EBS. -/
def cfgB : InstanceConfig :=
  { ctype := "b", ebsOptimized := true, ebsThroughput := 200,
    resources := [("cpu", 4), ("mem", 16)], price := [("r", 11 / 50)],
    spotOk := true, nvme := false }

/-- Selector state holding A and B, sleep window 300 s, region r. -/
def stateAB : InstanceState :=
  { configs := [cfgA, cfgB], sleepTime := 300, region := "r",
    unavailable := [] }

/-- The scenario need: 2 cpu, 8 GiB. -/
def needAB : Resources := [("cpu", 2), ("mem", 8)]

/-- A catalog whose only entry is not spot-eligible. -/
def cfgNoSpot : InstanceConfig :=
  { ctype := "a", ebsOptimized := false, ebsThroughput := 100,
    resources := [("cpu", 4)], price := [("r", 1 / 5)], spotOk := false,
    nvme := false }

/-- Selector state holding only the non-spot config. -/
def stateNoSpot : InstanceState :=
  { configs := [cfgNoSpot], sleepTime := 300, region := "r",
    unavailable := [] }

/-- A launch environment whose capacity probe always fails with a Temporary
error (spot mode with a probe depth, so the Capacity state runs). -/
def envRetry : GoEnv :=
  { spot := true, spotProbeDepth := 1,
    capacity := fun _ => (false, some (.kinded .temporary)),
    launch := fun _ => .error .plain,
    tag := fun _ => none,
    waitInstance := fun _ => none,
    describeDns := fun _ => .error .plain,
    waitNew := fun _ => none,
    waitCfg := fun _ => none,
    connRefused := fun _ => false,
    describeTags := fun _ => .error .plain,
    imageDigest := none,
    parseDigest := fun _ => none,
    updNew := fun _ => none,
    cfgInstance := fun _ => none,
    upload := fun _ => none,
    install := fun _ => none }

/-- The described instance of a healthy worker: a DNS name and matching
version/digest tags. -/
def instOK : Ec2Inst :=
  { publicDnsName := some "host-1",
    tags := [("reflowlet:version", "v1"), ("reflowlet:digest", "d1")] }

/-- A launch environment in which every call succeeds and the worker digest
matches the controller digest. -/
def envOK : GoEnv :=
  { spot := false, spotProbeDepth := 0,
    capacity := fun _ => (true, none),
    launch := fun _ => .ok "i-1",
    tag := fun _ => none,
    waitInstance := fun _ => none,
    describeDns := fun _ => .ok instOK,
    waitNew := fun _ => none,
    waitCfg := fun _ => none,
    connRefused := fun _ => false,
    describeTags := fun _ => .ok instOK,
    imageDigest := some 7,
    parseDigest := fun sg => if sg = "d1" then some 7 else none,
    updNew := fun _ => none,
    cfgInstance := fun _ => none,
    upload := fun _ => none,
    install := fun _ => none }

/-- A spot-eligible instance whose on-demand price has four decimal places
(like t3.nano at \$0.0052 or similar sub-mill prices). -/
def spotInstCheap : SpotInst :=
  { price := 29 / 5000, ctype := "t3.nano", ami := "ami-1" }

/-- A spot instance at \$0.20. -/
def spotInst1 : SpotInst :=
  { price := 1 / 5, ctype := "c5.xlarge", ami := "ami-1" }

/-- A spot environment whose request is granted and fulfilled at once. -/
def spotEnv0 : SpotEnv :=
  { now := 0, requestSpot := fun _ => .ok ["sir-1"],
    statusCodes := fun _ => ["fulfilled"], ctxDeadlinePoll := 100,
    describeSpot := fun _ => .ok [some "i-9"] }

/-- A spot environment whose request reaches the terminal
schedule-expired status. -/
def spotEnvFail : SpotEnv :=
  { now := 0, requestSpot := fun _ => .ok ["sir-1"],
    statusCodes := fun _ => ["schedule-expired"], ctxDeadlinePoll := 100,
    describeSpot := fun _ => .ok [some "i-9"] }

/-! ## Selector lemmas -/

theorem aset_look (u : List (String × Int)) (k : String) (v : Int) :
    alook (aset u k v) k = some v := by
  simp [alook, aset]

theorem maxScan_fst (s : InstanceState) (need : Resources) (spot : Bool)
    (sd : Resources → Resources → ℚ) (now : Int) :
    ∀ (l : List InstanceConfig) (b : InstanceConfig) (po : Option ℚ),
      (maxScan s need spot sd now l (b, po)).1 = b ∨
        isCandidate s need spot now
          (maxScan s need spot sd now l (b, po)).1 = true := by
  intro l
  induction l with
  | nil => intro b po; left; rfl
  | cons c rest ih =>
    intro b po
    by_cases hc : isCandidate s need spot now c = true
    · cases po with
      | none =>
        simp only [maxScan, if_pos hc]
        rcases ih c (some (sd c.resources need)) with h | h
        · right; rw [h]; exact hc
        · right; exact h
      | some dist =>
        simp only [maxScan, if_pos hc]
        by_cases hlt : dist < sd c.resources need
        · rw [if_pos hlt]
          rcases ih c (some (sd c.resources need)) with h | h
          · right; rw [h]; exact hc
          · right; exact h
        · rw [if_neg hlt]
          exact ih b (some dist)
    · simp only [maxScan, if_neg hc]
      exact ih b po

theorem maxAvailable_snd (s : InstanceState) (need : Resources) (spot : Bool)
    (sd : Resources → Resources → ℚ) (now : Int) :
    (maxAvailable s need spot sd now).2 =
      Resources.availableB (maxAvailable s need spot sd now).1.resources
        need := rfl

theorem minScan_fst (s : InstanceState) (need : Resources) (spot : Bool)
    (now : Int) :
    ∀ (l : List InstanceConfig) (b : InstanceConfig) (po : Option ℚ)
      (v : List InstanceConfig),
      (minScan s need spot now l (b, po, v)).1 = b ∨
        isCandidate s need spot now
          (minScan s need spot now l (b, po, v)).1 = true := by
  intro l
  induction l with
  | nil => intro b po v; left; rfl
  | cons c rest ih =>
    intro b po v
    by_cases hc : isCandidate s need spot now c = true
    · cases hp : priceIn s.region c with
      | none =>
        simp only [minScan, if_pos hc, hp]
        exact ih b po v
      | some p =>
        by_cases hlt : qltOpt p po = true
        · simp only [minScan, if_pos hc, hp, hlt, if_true]
          rcases ih c (some p) (v ++ [c]) with h | h
          · right; rw [h]; exact hc
          · right; exact h
        · simp only [minScan, if_pos hc, hp, eq_false_of_ne_true hlt,
            if_false]
          exact ih b po (v ++ [c])
    · simp only [minScan, if_neg hc]
      exact ih b po v

theorem minScan_viable (s : InstanceState) (need : Resources) (spot : Bool)
    (now : Int) :
    ∀ (l : List InstanceConfig) (b : InstanceConfig) (po : Option ℚ)
      (v : List InstanceConfig) (x : InstanceConfig),
      x ∈ (minScan s need spot now l (b, po, v)).2.2 →
        x ∈ v ∨ isCandidate s need spot now x = true := by
  intro l
  induction l with
  | nil => intro b po v x hx; left; exact hx
  | cons c rest ih =>
    intro b po v x hx
    by_cases hc : isCandidate s need spot now c = true
    · cases hp : priceIn s.region c with
      | none =>
        simp only [minScan, if_pos hc, hp] at hx
        exact ih b po v x hx
      | some p =>
        by_cases hlt : qltOpt p po = true
        · simp only [minScan, if_pos hc, hp, hlt, if_true] at hx
          rcases ih c (some p) (v ++ [c]) x hx with h | h
          · rcases List.mem_append.mp h with h1 | h1
            · left; exact h1
            · right; rw [List.mem_singleton.mp h1]; exact hc
          · right; exact h
        · simp only [minScan, if_pos hc, hp, eq_false_of_ne_true hlt,
            if_false] at hx
          rcases ih b po (v ++ [c]) x hx with h | h
          · rcases List.mem_append.mp h with h1 | h1
            · left; exact h1
            · right; rw [List.mem_singleton.mp h1]; exact hc
          · right; exact h
    · simp only [minScan, if_neg hc] at hx
      exact ih b po v x hx

theorem adjustStep_fst (region : String) (c : InstanceConfig)
    (acc : InstanceConfig × Option ℚ × Bool) :
    (adjustStep region c acc).1 = acc.1 ∨ (adjustStep region c acc).1 = c := by
  unfold adjustStep
  by_cases h1 : fireGuard region c acc = true <;>
    simp only [h1, if_pos, if_neg, Bool.false_eq_true, if_false] <;>
    split <;> simp

theorem adjust_fst (region : String) :
    ∀ (l : List InstanceConfig) (acc : InstanceConfig × Option ℚ × Bool),
      (adjust region l acc).1 = acc.1 ∨ (adjust region l acc).1 ∈ l := by
  intro l
  induction l with
  | nil => intro acc; left; rfl
  | cons c rest ih =>
    intro acc
    rw [adjust]
    rcases ih (adjustStep region c acc) with h | h
    · rcases adjustStep_fst region c acc with h2 | h2
      · left; rw [h, h2]
      · right; rw [h, h2]; exact List.mem_cons_self c rest
    · right; exact List.mem_cons_of_mem c h

theorem minAvailable_fst (s : InstanceState) (need : Resources) (spot : Bool)
    (now : Int) :
    (minAvailable s need spot now).1 = zeroConfig ∨
      isCandidate s need spot now (minAvailable s need spot now).1 = true := by
  have hfst : (minAvailable s need spot now).1 =
      (adjust s.region
        (minScan s need spot now s.configs (zeroConfig, none, [])).2.2
        ((minScan s need spot now s.configs (zeroConfig, none, [])).1,
          (minScan s need spot now s.configs (zeroConfig, none, [])).2.1,
          false)).1 := rfl
  rw [hfst]
  rcases adjust_fst s.region
      (minScan s need spot now s.configs (zeroConfig, none, [])).2.2
      ((minScan s need spot now s.configs (zeroConfig, none, [])).1,
        (minScan s need spot now s.configs (zeroConfig, none, [])).2.1,
        false) with h | h
  · rw [h]
    exact minScan_fst s need spot now s.configs zeroConfig none []
  · rcases minScan_viable s need spot now s.configs zeroConfig none [] _ h
        with h1 | h1
    · exact absurd h1 (List.not_mem_nil _)
    · right; exact h1

/-! ## Claim C2: MaxAvailable soundness -/

/-- C2 counterexample: with a catalog whose only entry is not spot-eligible
and an empty resource requirement, `MaxAvailable(need, spot=true)` returns
ok=true together with the zero-valued config, whose SpotOk is false — so a
call with spot=true can return ok=true with a config whose SpotOk is
false. -/
theorem claim_C2_counterexample :
    (maxAvailable stateNoSpot [] true sd0 1000).2 = true ∧
    (maxAvailable stateNoSpot [] true sd0 1000).1.spotOk = false := by
  decide

/-- C2 (amended): if `MaxAvailable(need, spot)` returns ok=true then every
component of the returned resources covers the corresponding component of
need; and when spot is true and need has some strictly positive component,
the returned config has SpotOk.  (With a need satisfied by the empty vector
the zero config can be returned with ok=true and SpotOk=false.) -/
theorem claim_C2_amended (s : InstanceState) (need : Resources) (spot : Bool)
    (sd : Resources → Resources → ℚ) (now : Int)
    (hok : (maxAvailable s need spot sd now).2 = true) :
    Resources.availableB (maxAvailable s need spot sd now).1.resources need
        = true ∧
    (spot = true → (∃ kv ∈ need, 0 < kv.2) →
      (maxAvailable s need spot sd now).1.spotOk = true) := by
  have hsnd : (maxAvailable s need spot sd now).2 =
      Resources.availableB (maxAvailable s need spot sd now).1.resources
        need := rfl
  have hav : Resources.availableB
      (maxAvailable s need spot sd now).1.resources need = true := by
    rw [← hsnd]; exact hok
  refine ⟨hav, ?_⟩
  rintro hspot ⟨kv, hkv, hpos⟩
  subst hspot
  have hfst : (maxAvailable s need true sd now).1 =
      (maxScan s need true sd now s.configs (zeroConfig, none)).1 := rfl
  rcases maxScan_fst s need true sd now s.configs zeroConfig none with h | h
  · exfalso
    rw [hfst, h] at hav
    have h2 := List.all_eq_true.mp hav kv hkv
    have h3 : kv.2 ≤ rget zeroConfig.resources kv.1 := of_decide_eq_true h2
    have h4 : rget zeroConfig.resources kv.1 = 0 := by
      simp [rget, zeroConfig]
    rw [h4] at h3
    exact absurd hpos (not_lt.mpr h3)
  · rw [hfst]
    cases hso : (maxScan s need true sd now s.configs
        (zeroConfig, none)).1.spotOk with
    | true => rfl
    | false =>
      exfalso
      rw [isCandidate, hso] at h
      simp at h

/-- C2 witness for the amended theorem: in the two-config catalog a spot
query with a positive need returns a SpotOk config. -/
theorem claim_C2_witness :
    (maxAvailable stateAB needAB true sd0 1000).1.spotOk = true :=
  (claim_C2_amended stateAB needAB true sd0 1000 (by decide)).2 rfl
    ⟨("cpu", 2), by decide, by decide⟩

/-! ## Claim C5: the unavailability window -/

/-- C5: after `Unavailable(c)` records time T, any call to Type,
MaxAvailable or MinAvailable at a time in `[T, T + sleepTime)` excludes c:
Type on the name returns ok=false, and neither selector returns a config
with the marked type name (every catalog entry has a non-empty type name,
so the zero config returned when nothing qualifies is not c). -/
theorem claim_C5 (s : InstanceState) (c : InstanceConfig) (T now : Int)
    (need : Resources) (spot : Bool) (sd : Resources → Resources → ℚ)
    (_h1 : T ≤ now) (h2 : now < T + s.sleepTime) (hc : c.ctype ≠ "") :
    (typeOp (markUnavailable s c T) c.ctype now).2 = false ∧
    (maxAvailable (markUnavailable s c T) need spot sd now).1.ctype ≠
      c.ctype ∧
    (minAvailable (markUnavailable s c T) need spot now).1.ctype ≠
      c.ctype := by
  have hru : recentlyUnavailable (markUnavailable s c T) now c.ctype
      = true := by
    rw [recentlyUnavailable, markUnavailable]
    simp only [aset_look, Option.getD_some]
    rw [decide_eq_true_eq]
    omega
  have hexcl : ∀ x : InstanceConfig,
      isCandidate (markUnavailable s c T) need spot now x = true →
      x.ctype ≠ c.ctype := by
    intro x hx heq
    rw [isCandidate] at hx
    simp only [Bool.and_eq_true, Bool.not_eq_true'] at hx
    rw [heq, hru] at hx
    exact absurd hx.1.1 (by simp)
  refine ⟨?_, ?_, ?_⟩
  · rw [typeOp, if_pos hru]
  · have hfst : (maxAvailable (markUnavailable s c T) need spot sd now).1 =
        (maxScan (markUnavailable s c T) need spot sd now
          (markUnavailable s c T).configs (zeroConfig, none)).1 := rfl
    rw [hfst]
    rcases maxScan_fst (markUnavailable s c T) need spot sd now
        (markUnavailable s c T).configs zeroConfig none with h | h
    · rw [h]
      intro he
      exact hc he.symm
    · exact hexcl _ h
  · rcases minAvailable_fst (markUnavailable s c T) need spot now with h | h
    · rw [h]
      intro he
      exact hc he.symm
    · exact hexcl _ h

/-- C5 witness: mark config a at time 1000; at time 1100 (inside the 300 s
window) Type returns ok=false and neither selector returns type a. -/
theorem claim_C5_witness :
    (typeOp (markUnavailable stateAB cfgA 1000) "a" 1100).2 = false ∧
    (maxAvailable (markUnavailable stateAB cfgA 1000) needAB false sd0
      1100).1.ctype ≠ "a" ∧
    (minAvailable (markUnavailable stateAB cfgA 1000) needAB false
      1100).1.ctype ≠ "a" :=
  claim_C5 stateAB cfgA 1000 1100 needAB false sd0 (by decide) (by decide)
    (by decide)

/-! ## MinAvailable adjustment lemmas -/

theorem priceOf_eq (region : String) (c : InstanceConfig) (p : ℚ)
    (h : priceIn region c = some p) : priceOf region c = p := by
  rw [priceOf, h, Option.getD_some]

theorem fireGuard_iff (region : String) (c b : InstanceConfig) (q : ℚ) :
    fireGuard region c (b, some q, false) = true ↔
      (priceOf region c < q + ebsThroughputPremiumCost ∨
        priceOf region c < q * (1 + ebsThroughputPremiumPct / 100)) ∧
      b.ebsThroughput * (1 + ebsThroughputBenefitPct / 100) <
        c.ebsThroughput := by
  rw [fireGuard, premiumOk, benefitOk]
  simp [Bool.and_eq_true, Bool.or_eq_true, decide_eq_true_eq, and_comm]

theorem adjustStep_found (region : String) (c b : InstanceConfig) (q : ℚ) :
    adjustStep region c (b, some q, true) =
      if priceOf region c < q ∧ b.ebsThroughput ≤ c.ebsThroughput then
        (c, some (priceOf region c), true)
      else (b, some q, true) := by
  by_cases h : priceOf region c < q ∧ b.ebsThroughput ≤ c.ebsThroughput
  · rw [if_pos h]
    unfold adjustStep fireGuard qltOpt
    simp [h.1, h.2]
  · rw [if_neg h]
    unfold adjustStep fireGuard qltOpt
    rcases not_and_or.mp h with h1 | h1
    · simp [h1]
    · simp [h1]

theorem adjustStep_fire (region : String) (c b : InstanceConfig)
    (bp : Option ℚ) (h : fireGuard region c (b, bp, false) = true) :
    adjustStep region c (b, bp, false) = (c, some (priceOf region c),
      true) := by
  unfold adjustStep
  simp [h, qltOpt]

theorem adjustStep_nofire (region : String) (c b : InstanceConfig)
    (bp : Option ℚ) (h : fireGuard region c (b, bp, false) = false) :
    adjustStep region c (b, bp, false) = (b, bp, false) := by
  unfold adjustStep
  simp [h]

theorem adjust_found (region : String) :
    ∀ (l : List InstanceConfig) (b : InstanceConfig) (q : ℚ),
      ∃ b' q', adjust region l (b, some q, true) = (b', some q', true) ∧
        q' ≤ q ∧ b.ebsThroughput ≤ b'.ebsThroughput ∧
        ((b' = b ∧ q' = q) ∨ q' = priceOf region b') ∧
        ∀ w ∈ l, ¬(priceOf region w < q' ∧
          b'.ebsThroughput ≤ w.ebsThroughput) := by
  intro l
  induction l with
  | nil =>
    intro b q
    exact ⟨b, q, rfl, le_refl q, le_refl _, Or.inl ⟨rfl, rfl⟩, by simp⟩
  | cons c rest ih =>
    intro b q
    rw [adjust, adjustStep_found]
    by_cases hC : priceOf region c < q ∧ b.ebsThroughput ≤ c.ebsThroughput
    · rw [if_pos hC]
      obtain ⟨b', q', heq, hq, hebs, hrel, hbeats⟩ := ih c (priceOf region c)
      refine ⟨b', q', heq, by linarith [hC.1], le_trans hC.2 hebs, ?_, ?_⟩
      · rcases hrel with ⟨hb', hq'⟩ | hpr
        · right; rw [hb', hq']
        · right; exact hpr
      · intro w hw
        rcases List.mem_cons.mp hw with hwc | hwr
        · subst hwc
          rintro ⟨hlt, _⟩
          exact absurd hlt (not_lt.mpr hq)
        · exact hbeats w hwr
    · rw [if_neg hC]
      obtain ⟨b', q', heq, hq, hebs, hrel, hbeats⟩ := ih b q
      refine ⟨b', q', heq, hq, hebs, hrel, ?_⟩
      intro w hw
      rcases List.mem_cons.mp hw with hwc | hwr
      · subst hwc
        rintro ⟨hlt, hte⟩
        rcases not_and_or.mp hC with h1 | h2
        · exact absurd hlt (not_lt.mpr (le_trans hq (not_lt.mp h1)))
        · exact absurd (lt_of_le_of_lt (le_trans hebs hte) (not_le.mp h2))
            (lt_irrefl _)
      · exact hbeats w hwr

theorem adjust_nofound (region : String) :
    ∀ (l : List InstanceConfig) (b : InstanceConfig) (q : ℚ),
      (∀ w ∈ l, q ≤ priceOf region w) →
      ∃ b' q' f', adjust region l (b, some q, false) = (b', some q', f') ∧
        (f' = false → b' = b ∧ q' = q) ∧
        (f' = true → ∃ u, u ∈ l ∧
          fireGuard region u (b, some q, false) = true ∧
          q' ≤ priceOf region u ∧ u.ebsThroughput ≤ b'.ebsThroughput ∧
          q' = priceOf region b') ∧
        ∀ w ∈ l, ¬(priceOf region w < q' ∧
          b'.ebsThroughput ≤ w.ebsThroughput) := by
  intro l
  induction l with
  | nil =>
    intro b q _
    exact ⟨b, q, false, rfl, fun _ => ⟨rfl, rfl⟩, by simp, by simp⟩
  | cons c rest ih =>
    intro b q hmin
    rw [adjust]
    by_cases hf : fireGuard region c (b, some q, false) = true
    · rw [adjustStep_fire region c b (some q) hf]
      obtain ⟨b', q', heq, hq, hebs, hrel, hbeats⟩ :=
        adjust_found region rest c (priceOf region c)
      refine ⟨b', q', true, heq, ?_, ?_, ?_⟩
      · intro hff; exact absurd hff (by simp)
      · intro _
        refine ⟨c, List.mem_cons_self c rest, hf, hq, hebs, ?_⟩
        rcases hrel with ⟨hb', hq'⟩ | hpr
        · rw [hb', hq']
        · exact hpr
      · intro w hw
        rcases List.mem_cons.mp hw with hwc | hwr
        · subst hwc
          rintro ⟨hlt, _⟩
          exact absurd hlt (not_lt.mpr hq)
        · exact hbeats w hwr
    · have hf0 : fireGuard region c (b, some q, false) = false :=
        eq_false_of_ne_true hf
      rw [adjustStep_nofire region c b (some q) hf0]
      obtain ⟨b', q', f', heq, hfn, hfire, hbeats⟩ :=
        ih b q (fun w hw => hmin w (List.mem_cons_of_mem c hw))
      refine ⟨b', q', f', heq, hfn, ?_, ?_⟩
      · intro ht
        obtain ⟨u, hu, hug, huq, huebs, hupr⟩ := hfire ht
        exact ⟨u, List.mem_cons_of_mem c hu, hug, huq, huebs, hupr⟩
      · intro w hw
        rcases List.mem_cons.mp hw with hwc | hwr
        · subst hwc
          rintro ⟨hlt, hte⟩
          cases hf' : f' with
          | false =>
            obtain ⟨hb', hq'⟩ := hfn hf'
            rw [hq'] at hlt
            exact absurd hlt (not_lt.mpr (hmin w (List.mem_cons_self w rest)))
          | true =>
            obtain ⟨u, hu, hug, huq, huebs, hupr⟩ := hfire hf'
            have hgu := (fireGuard_iff region u b q).mp hug
            have hgc := (fireGuard_iff region w b q).not.mp
              (by rw [hf0]; simp)
            rcases not_and_or.mp hgc with hpc | hbc
            · rcases hgu.1 with h1 | h1
              · have : priceOf region u < priceOf region w := by
                  have := not_or.mp hpc
                  linarith [this.1]
                linarith
              · have : priceOf region u < priceOf region w := by
                  have := not_or.mp hpc
                  linarith [this.2]
                linarith
            · have hble : w.ebsThroughput ≤
                  b.ebsThroughput * (1 + ebsThroughputBenefitPct / 100) :=
                not_lt.mp hbc
              linarith [hgu.2]
        · exact hbeats w hwr

theorem minScan_grow (s : InstanceState) (need : Resources) (spot : Bool)
    (now : Int) :
    ∀ (l : List InstanceConfig)
      (acc : InstanceConfig × Option ℚ × List InstanceConfig)
      (y : InstanceConfig), y ∈ acc.2.2 →
      y ∈ (minScan s need spot now l acc).2.2 := by
  intro l
  induction l with
  | nil => intro acc y hy; exact hy
  | cons c rest ih =>
    intro acc y hy
    by_cases hc : isCandidate s need spot now c = true
    · cases hp : priceIn s.region c with
      | none =>
        simp only [minScan, if_pos hc, hp]
        exact ih acc y hy
      | some p =>
        by_cases hlt : qltOpt p acc.2.1 = true
        · simp only [minScan, if_pos hc, hp, hlt, if_true]
          exact ih _ y (List.mem_append.mpr (Or.inl hy))
        · simp only [minScan, if_pos hc, hp, eq_false_of_ne_true hlt,
            if_false]
          exact ih _ y (List.mem_append.mpr (Or.inl hy))
    · simp only [minScan, if_neg hc]
      exact ih acc y hy

theorem minScan_mem (s : InstanceState) (need : Resources) (spot : Bool)
    (now : Int) :
    ∀ (l : List InstanceConfig)
      (acc : InstanceConfig × Option ℚ × List InstanceConfig)
      (x : InstanceConfig) (px : ℚ), x ∈ l →
      isCandidate s need spot now x = true →
      priceIn s.region x = some px →
      x ∈ (minScan s need spot now l acc).2.2 := by
  intro l
  induction l with
  | nil => intro acc x px hx; exact absurd hx (List.not_mem_nil x)
  | cons c rest ih =>
    intro acc x px hx hcand hpx
    rcases List.mem_cons.mp hx with hxc | hxr
    · subst hxc
      simp only [minScan, if_pos hcand, hpx]
      by_cases hlt : qltOpt px acc.2.1 = true
      · simp only [hlt, if_true]
        exact minScan_grow s need spot now rest _ x
          (List.mem_append.mpr (Or.inr (List.mem_singleton.mpr rfl)))
      · simp only [eq_false_of_ne_true hlt, if_false]
        exact minScan_grow s need spot now rest _ x
          (List.mem_append.mpr (Or.inr (List.mem_singleton.mpr rfl)))
    · by_cases hc : isCandidate s need spot now c = true
      · cases hp : priceIn s.region c with
        | none =>
          simp only [minScan, if_pos hc, hp]
          exact ih acc x px hxr hcand hpx
        | some p =>
          by_cases hlt : qltOpt p acc.2.1 = true
          · simp only [minScan, if_pos hc, hp, hlt, if_true]
            exact ih _ x px hxr hcand hpx
          · simp only [minScan, if_pos hc, hp, eq_false_of_ne_true hlt,
              if_false]
            exact ih _ x px hxr hcand hpx
      · simp only [minScan, if_neg hc]
        exact ih acc x px hxr hcand hpx

theorem MinInv_some (region : String) (b : InstanceConfig) (q : ℚ)
    (vl : List InstanceConfig) (h1 : q = priceOf region b) (h2 : b ∈ vl)
    (h3 : ∀ w ∈ vl, q ≤ priceOf region w) :
    MinInv region (b, some q, vl) := by
  constructor
  · intro h
    exact absurd h (by simp)
  · intro q' hq'
    obtain rfl : q = q' := Option.some.inj hq'
    exact ⟨h1, h2, h3⟩

theorem minScan_inv (s : InstanceState) (need : Resources) (spot : Bool)
    (now : Int) :
    ∀ (l : List InstanceConfig)
      (acc : InstanceConfig × Option ℚ × List InstanceConfig),
      MinInv s.region acc →
      MinInv s.region (minScan s need spot now l acc) := by
  intro l
  induction l with
  | nil => intro acc h; exact h
  | cons c rest ih =>
    intro acc hinv
    by_cases hc : isCandidate s need spot now c = true
    · cases hp : priceIn s.region c with
      | none =>
        simp only [minScan, if_pos hc, hp]
        exact ih acc hinv
      | some p =>
        have hpc : priceOf s.region c = p := priceOf_eq s.region c p hp
        obtain ⟨b, po, vl⟩ := acc
        cases po with
        | none =>
          obtain ⟨hb, hvl⟩ := hinv.1 rfl
          simp only at hb hvl
          subst hb; subst hvl
          simp only [minScan, if_pos hc, hp, qltOpt, if_true]
          apply ih
          apply MinInv_some s.region c p [c] hpc.symm
            (List.mem_singleton.mpr rfl)
          intro w hw
          rw [List.mem_singleton.mp hw, hpc]
        | some q =>
          obtain ⟨hq, hbm, hmin⟩ := hinv.2 q rfl
          by_cases hlt : qltOpt p (some q) = true
          · have hplt : p < q := by
              rw [qltOpt] at hlt
              exact of_decide_eq_true hlt
            simp only [minScan, if_pos hc, hp, hlt, if_true]
            apply ih
            apply MinInv_some s.region c p (vl ++ [c]) hpc.symm
              (List.mem_append.mpr (Or.inr (List.mem_singleton.mpr rfl)))
            intro w hw
            rcases List.mem_append.mp hw with hw1 | hw1
            · exact le_of_lt (lt_of_lt_of_le hplt (hmin w hw1))
            · rw [List.mem_singleton.mp hw1, hpc]
          · have hge : q ≤ p := by
              rw [qltOpt] at hlt
              exact not_lt.mp (of_decide_eq_false (eq_false_of_ne_true hlt))
            simp only [minScan, if_pos hc, hp, eq_false_of_ne_true hlt,
              if_false]
            apply ih
            apply MinInv_some s.region b q (vl ++ [c]) hq
              (List.mem_append.mpr (Or.inl hbm))
            intro w hw
            rcases List.mem_append.mp hw with hw1 | hw1
            · exact hmin w hw1
            · rw [List.mem_singleton.mp hw1, hpc]
              exact hge
    · simp only [minScan, if_neg hc]
      exact ih acc hinv

theorem adjustStep_keeps_found (region : String) (c b : InstanceConfig)
    (bp : Option ℚ) : (adjustStep region c (b, bp, true)).2.2 = true := by
  unfold adjustStep fireGuard
  split <;> [simp_all; skip]
  dsimp only
  split <;> rfl

theorem adjustFires_found (region : String) :
    ∀ (l : List InstanceConfig) (b : InstanceConfig) (bp : Option ℚ),
      adjustFires region l (b, bp, true) = 0 := by
  intro l
  induction l with
  | nil => intro b bp; rfl
  | cons c rest ih =>
    intro b bp
    rw [adjustFires]
    have hguard : fireGuard region c (b, bp, true) = false := by
      rw [fireGuard]; simp
    rw [hguard]
    rcases hstep : adjustStep region c (b, bp, true) with ⟨a1, a2, a3⟩
    have ha3 : a3 = true := by
      have := adjustStep_keeps_found region c b bp
      rw [hstep] at this
      exact this
    subst ha3
    simpa using ih a1 a2

theorem adjustFires_le_one (region : String) :
    ∀ (l : List InstanceConfig) (b : InstanceConfig) (bp : Option ℚ),
      adjustFires region l (b, bp, false) ≤ 1 := by
  intro l
  induction l with
  | nil => intro b bp; exact Nat.zero_le 1
  | cons c rest ih =>
    intro b bp
    rw [adjustFires]
    by_cases hf : fireGuard region c (b, bp, false) = true
    · rw [hf, adjustStep_fire region c b bp hf,
        adjustFires_found region rest]
      simp
    · have hf0 : fireGuard region c (b, bp, false) = false :=
        eq_false_of_ne_true hf
      rw [hf0, adjustStep_nofire region c b bp hf0]
      simpa using ih b bp

/-! ## Claim C3: the MinAvailable EBS-throughput adjustment -/

theorem minInv_base (region : String) :
    MinInv region (zeroConfig, none, []) := by
  constructor
  · intro _; exact ⟨rfl, rfl⟩
  · intro q h; exact absurd h (by simp)

theorem scenAcand : isCandidate stateAB needAB false 1000 cfgA = true := by
  simp [isCandidate, recentlyUnavailable, alook, stateAB, cfgA, needAB,
    Resources.availableB, rget, List.all, List.find?]
  norm_num

theorem scenBcand : isCandidate stateAB needAB false 1000 cfgB = true := by
  simp [isCandidate, recentlyUnavailable, alook, stateAB, cfgB, needAB,
    Resources.availableB, rget, List.all, List.find?]
  norm_num

theorem scenAprice : priceIn stateAB.region cfgA = some (1 / 5 : ℚ) := by
  simp [priceIn, stateAB, cfgA, List.find?]

theorem scenBprice : priceIn stateAB.region cfgB = some (11 / 50 : ℚ) := by
  simp [priceIn, stateAB, cfgB, List.find?]

theorem scenMinScan : minScan stateAB needAB false 1000 stateAB.configs
    (zeroConfig, none, []) = (cfgA, some (1 / 5 : ℚ), [cfgA, cfgB]) := by
  show minScan stateAB needAB false 1000 [cfgA, cfgB]
    (zeroConfig, none, []) = _
  simp only [minScan, scenAcand, scenBcand, scenAprice, scenBprice, if_true,
    qltOpt]
  norm_num

theorem scenFireA : fireGuard stateAB.region cfgA
    (cfgA, some (1 / 5 : ℚ), false) = false := by
  simp [fireGuard, premiumOk, benefitOk, cfgA, priceOf, priceIn, stateAB,
    List.find?, ebsThroughputPremiumCost, ebsThroughputPremiumPct,
    ebsThroughputBenefitPct]
  norm_num

theorem scenFireB : fireGuard stateAB.region cfgB
    (cfgA, some (1 / 5 : ℚ), false) = true := by
  simp [fireGuard, premiumOk, benefitOk, cfgA, cfgB, priceOf, priceIn,
    stateAB, List.find?, ebsThroughputPremiumCost, ebsThroughputPremiumPct,
    ebsThroughputBenefitPct]
  norm_num

theorem scenAdjust : adjust stateAB.region [cfgA, cfgB]
    (cfgA, some (1 / 5 : ℚ), false) = (cfgB, some (11 / 50 : ℚ), true) := by
  rw [adjust, adjustStep_nofire stateAB.region cfgA cfgA (some (1 / 5))
    scenFireA, adjust, adjustStep_fire stateAB.region cfgB cfgA
    (some (1 / 5)) scenFireB, priceOf_eq stateAB.region cfgB (11 / 50)
    scenBprice, adjust]

theorem scenBavail : Resources.availableB cfgB.resources needAB = true := by
  simp [Resources.availableB, rget, cfgB, needAB, List.all, List.find?]
  norm_num

/-- The spec scenario: A \$0.20 with 100 MB/s, B \$0.22 with 200 MB/s, need
2 cpu / 8 GiB; the upgrade premium (2 cents, 10%) is within bounds and the
throughput benefit (100%) exceeds 50%, so B is selected. -/
theorem minAvailable_scenario :
    minAvailable stateAB needAB false 1000 = (cfgB, true) := by
  have h : minAvailable stateAB needAB false 1000 =
      ((adjust stateAB.region
        (minScan stateAB needAB false 1000 stateAB.configs
          (zeroConfig, none, [])).2.2
        ((minScan stateAB needAB false 1000 stateAB.configs
          (zeroConfig, none, [])).1,
         (minScan stateAB needAB false 1000 stateAB.configs
          (zeroConfig, none, [])).2.1, false)).1,
       Resources.availableB
         (adjust stateAB.region
           (minScan stateAB needAB false 1000 stateAB.configs
             (zeroConfig, none, [])).2.2
           ((minScan stateAB needAB false 1000 stateAB.configs
             (zeroConfig, none, [])).1,
            (minScan stateAB needAB false 1000 stateAB.configs
             (zeroConfig, none, [])).2.1, false)).1.resources needAB) := rfl
  rw [h, scenMinScan]
  show ((adjust stateAB.region [cfgA, cfgB]
    (cfgA, some (1 / 5 : ℚ), false)).1, _) = _
  rw [scenAdjust]
  show (cfgB, Resources.availableB cfgB.resources needAB) = (cfgB, true)
  rw [scenBavail]

/-- C3: MinAvailable first picks the cheapest viable config (kept when no
adjustment fires); the throughput upgrade fires at most once; when it fires,
the upgrade target offers at least ebsThroughputBenefitPct=50% more EBS
throughput than the cheapest pick at a premium of at most
ebsThroughputPremiumCost=\$0.03 absolute or ebsThroughputPremiumPct=15%
relative, and afterwards any viable config matching the final throughput at
strictly lower price would have been adopted (the result is not undercut);
and on the spec scenario (A \$0.20/100, B \$0.22/200) MinAvailable returns
B. -/
theorem claim_C3 (s : InstanceState) (need : Resources) (spot : Bool)
    (now : Int) :
    let pr := minScan s need spot now s.configs (zeroConfig, none, [])
    let r := adjust s.region pr.2.2 (pr.1, pr.2.1, false)
    adjustFires s.region pr.2.2 (pr.1, pr.2.1, false) ≤ 1 ∧
    (r.2.2 = false → r.1 = pr.1) ∧
    (r.2.2 = true → ∃ u q q', u ∈ pr.2.2 ∧ pr.2.1 = some q ∧
      r.2.1 = some q' ∧
      fireGuard s.region u (pr.1, some q, false) = true ∧
      (priceOf s.region u ≤ q + ebsThroughputPremiumCost ∨
        priceOf s.region u ≤ q * (1 + ebsThroughputPremiumPct / 100)) ∧
      pr.1.ebsThroughput * (1 + ebsThroughputBenefitPct / 100) ≤
        u.ebsThroughput ∧
      q' ≤ priceOf s.region u ∧ u.ebsThroughput ≤ r.1.ebsThroughput ∧
      ∀ w ∈ pr.2.2, ¬(priceOf s.region w < q' ∧
        r.1.ebsThroughput ≤ w.ebsThroughput)) ∧
    minAvailable stateAB needAB false 1000 = (cfgB, true) := by
  intro pr r
  have hinv : MinInv s.region pr :=
    minScan_inv s need spot now s.configs (zeroConfig, none, [])
      (minInv_base s.region)
  refine ⟨adjustFires_le_one s.region pr.2.2 pr.1 pr.2.1, ?_⟩
  rcases hq0 : pr.2.1 with _ | q
  · have hvl : pr.2.2 = [] := (hinv.1 hq0).2
    have hr : r = (pr.1, pr.2.1, false) := by
      show adjust s.region pr.2.2 (pr.1, pr.2.1, false) = (pr.1, pr.2.1,
        false)
      rw [hvl, adjust]
    refine ⟨?_, ?_, minAvailable_scenario⟩
    · intro _; rw [hr]
    · intro ht
      rw [hr, hq0] at ht
      exact absurd ht (by simp)
  · obtain ⟨hqb, hbmem, hmin⟩ := hinv.2 q hq0
    obtain ⟨b', q', f', heq, hfn, hfire, hbeats⟩ :=
      adjust_nofound s.region pr.2.2 pr.1 q hmin
    have hr : r = (b', some q', f') := by
      show adjust s.region pr.2.2 (pr.1, pr.2.1, false) = (b', some q', f')
      rw [hq0]
      exact heq
    refine ⟨?_, ?_, minAvailable_scenario⟩
    · intro hfalse
      rw [hr] at hfalse
      obtain ⟨hb', _⟩ := hfn hfalse
      rw [hr]
      exact hb'
    · intro htrue
      rw [hr] at htrue
      obtain ⟨u, hu, hug, huq, huebs, hupr⟩ := hfire htrue
      have hgu := (fireGuard_iff s.region u pr.1 q).mp hug
      refine ⟨u, q, q', hu, rfl, by rw [hr], hug, ?_, le_of_lt hgu.2, huq,
        by rw [hr]; exact huebs, ?_⟩
      · rcases hgu.1 with h | h
        · exact Or.inl (le_of_lt h)
        · exact Or.inr (le_of_lt h)
      · intro w hw
        rw [hr]
        exact hbeats w hw

/-- C3 witness: the at-most-once bound and the scenario outcome at the
concrete two-config state. -/
theorem claim_C3_witness :
    adjustFires stateAB.region
      (minScan stateAB needAB false 1000 stateAB.configs
        (zeroConfig, none, [])).2.2
      ((minScan stateAB needAB false 1000 stateAB.configs
        (zeroConfig, none, [])).1,
       (minScan stateAB needAB false 1000 stateAB.configs
        (zeroConfig, none, [])).2.1, false) ≤ 1 ∧
    minAvailable stateAB needAB false 1000 = (cfgB, true) := by
  have h := claim_C3 stateAB needAB false 1000
  exact ⟨h.1, h.2.2.2⟩

/-! ## Claim C4: MinAvailable returns no strictly dominated config -/

/-- C4: when `MinAvailable(need, spot)` returns ok=true, no viable config
(a catalog entry satisfying need, not in the unavailability window,
spot-eligible when spot is set, and priced in the region) has both a
strictly lower region price and a strictly higher EBS throughput than the
returned config. -/
theorem claim_C4 (s : InstanceState) (need : Resources) (spot : Bool)
    (now : Int) (v : InstanceConfig) (pv pr : ℚ)
    (_hok : (minAvailable s need spot now).2 = true)
    (hv : v ∈ s.configs)
    (hcand : isCandidate s need spot now v = true)
    (hpv : priceIn s.region v = some pv)
    (hpr : priceIn s.region (minAvailable s need spot now).1 = some pr) :
    ¬(pv < pr ∧
      (minAvailable s need spot now).1.ebsThroughput < v.ebsThroughput) := by
  have hmem : v ∈ (minScan s need spot now s.configs
      (zeroConfig, none, [])).2.2 :=
    minScan_mem s need spot now s.configs (zeroConfig, none, []) v pv hv
      hcand hpv
  have hinv := minScan_inv s need spot now s.configs (zeroConfig, none, [])
    (minInv_base s.region)
  rcases hq0 : (minScan s need spot now s.configs
      (zeroConfig, none, [])).2.1 with _ | q
  · rw [(hinv.1 hq0).2] at hmem
    exact absurd hmem (List.not_mem_nil v)
  · obtain ⟨hqb, hbmem, hmin⟩ := hinv.2 q hq0
    obtain ⟨b', q', f', heq, hfn, hfire, hbeats⟩ :=
      adjust_nofound s.region
        (minScan s need spot now s.configs (zeroConfig, none, [])).2.2
        (minScan s need spot now s.configs (zeroConfig, none, [])).1 q hmin
    have hres : (minAvailable s need spot now).1 = b' := by
      show (adjust s.region
        (minScan s need spot now s.configs (zeroConfig, none, [])).2.2
        ((minScan s need spot now s.configs (zeroConfig, none, [])).1,
         (minScan s need spot now s.configs (zeroConfig, none, [])).2.1,
         false)).1 = b'
      rw [hq0, heq]
    have hprb : priceOf s.region b' = pr := by
      apply priceOf_eq
      rw [← hres]
      exact hpr
    have hq'pr : q' = pr := by
      cases hf' : f' with
      | false =>
        obtain ⟨hb', hq'⟩ := hfn hf'
        rw [hq', hqb, ← hb', hprb]
      | true =>
        obtain ⟨u, hu, hug, huq, huebs, hupr⟩ := hfire hf'
        rw [hupr, hprb]
    rintro ⟨hlt, hte⟩
    apply hbeats v hmem
    constructor
    · rw [priceOf_eq s.region v pv hpv, hq'pr]
      exact hlt
    · rw [hres] at hte
      exact le_of_lt hte

/-! ## Launch loop lemmas -/

theorem epilogue_next (m m1 : MachSt) (h : epilogue m = .next m1) :
    (m.err = none ∧
      m1 = { m with n := 0, d := 5, st := m.st + 1, iter := m.iter + 1 }) ∨
    (∃ e, m.err = some e ∧ m.n ≠ maxTries ∧ isAbort (reclass e) = false ∧
      m1 = { m with
             err := some (reclass e), n := m.n + 1, d := 2 * m.d,
             iter := m.iter + 1, sleeps := m.sleeps ++ [m.d] }) := by
  rcases he : m.err with _ | e
  · simp only [epilogue, he] at h
    exact Or.inl ⟨rfl, (StepRes.next.inj h).symm⟩
  · simp only [epilogue, he] at h
    by_cases hn : m.n = maxTries
    · rw [if_pos hn] at h
      exact StepRes.noConfusion h
    · rw [if_neg hn] at h
      by_cases ha : isAbort (reclass e) = true
      · rw [if_pos ha] at h
        exact StepRes.noConfusion h
      · rw [if_neg ha] at h
        exact Or.inr ⟨e, rfl, hn, eq_false_of_ne_true ha,
          (StepRes.next.inj h).symm⟩

theorem epilogue_stop (m m1 : MachSt) (h : epilogue m = .stop m1) :
    (∃ e, m1.err = some e) ∧ m1.n = m.n := by
  rcases he : m.err with _ | e
  · simp only [epilogue, he] at h
    exact StepRes.noConfusion h
  · simp only [epilogue, he] at h
    by_cases hn : m.n = maxTries
    · rw [if_pos hn] at h
      obtain rfl := StepRes.stop.inj h
      exact ⟨⟨e, he⟩, rfl⟩
    · rw [if_neg hn] at h
      by_cases ha : isAbort (reclass e) = true
      · rw [if_pos ha] at h
        obtain rfl := StepRes.stop.inj h
        exact ⟨⟨reclass e, rfl⟩, rfl⟩
      · rw [if_neg ha] at h
        exact StepRes.noConfusion h

theorem goStep_shape (env : GoEnv) (m : MachSt) (hlt : m.st < stateDone) :
    (∃ r, goStep env m = epilogue r ∧ r.n = m.n ∧
      (m.st = stateUpdateImage → ∃ e, r.err = some e) ∧
      (r.st = m.st ∨ (r.st = stateDone ∧ r.err = none ∧ GoPost env r))) ∨
    (m.st = stateUpdateImage ∧
      goStep env m = .next { m with
        st := stateWaitReflowlet, iter := m.iter + 1 }) := by
  have hlt8 : m.st < 8 := hlt
  have h8 : m.st = 0 ∨ m.st = 1 ∨ m.st = 2 ∨ m.st = 3 ∨ m.st = 4 ∨
      m.st = 5 ∨ m.st = 6 ∨ m.st = 7 := by omega
  rcases h8 with h | h | h | h | h | h | h | h
  · rw [goStep, if_pos h]
    left
    by_cases hc : (env.spot && decide (env.spotProbeDepth ≠ 0)) = true
    · rw [if_pos hc]
      exact ⟨_, rfl, rfl, fun h7 => absurd (h.symm.trans h7) (by decide),
        Or.inl rfl⟩
    · rw [if_neg hc]
      exact ⟨m, rfl, rfl, fun h7 => absurd (h.symm.trans h7) (by decide),
        Or.inl rfl⟩
  · rw [goStep, if_neg (by rw [h]; decide), if_pos h]
    left
    rcases hl : env.launch m.iter with e | id <;> simp only [hl]
    · exact ⟨_, rfl, rfl, fun h7 => absurd (h.symm.trans h7) (by decide),
        Or.inl rfl⟩
    · exact ⟨_, rfl, rfl, fun h7 => absurd (h.symm.trans h7) (by decide),
        Or.inl rfl⟩
  · rw [goStep, if_neg (by rw [h]; decide), if_neg (by rw [h]; decide),
      if_pos h]
    left
    exact ⟨_, rfl, rfl, fun h7 => absurd (h.symm.trans h7) (by decide),
      Or.inl rfl⟩
  · rw [goStep, if_neg (by rw [h]; decide), if_neg (by rw [h]; decide),
      if_neg (by rw [h]; decide), if_pos h]
    left
    exact ⟨_, rfl, rfl, fun h7 => absurd (h.symm.trans h7) (by decide),
      Or.inl rfl⟩
  · rw [goStep, if_neg (by rw [h]; decide), if_neg (by rw [h]; decide),
      if_neg (by rw [h]; decide), if_neg (by rw [h]; decide), if_pos h]
    left
    rcases hd : env.describeDns m.iter with e | inst <;> simp only [hd]
    · exact ⟨_, rfl, rfl, fun h7 => absurd (h.symm.trans h7) (by decide),
        Or.inl rfl⟩
    · rcases hdns : inst.publicDnsName with _ | sdns <;> simp only [hdns]
      · exact ⟨_, rfl, rfl, fun h7 => absurd (h.symm.trans h7) (by decide),
          Or.inl rfl⟩
      · by_cases hs : sdns = ""
        · rw [if_pos hs]
          exact ⟨_, rfl, rfl, fun h7 => absurd (h.symm.trans h7) (by decide),
            Or.inl rfl⟩
        · rw [if_neg hs]
          exact ⟨_, rfl, rfl, fun h7 => absurd (h.symm.trans h7) (by decide),
            Or.inl rfl⟩
  · rw [goStep, if_neg (by rw [h]; decide), if_neg (by rw [h]; decide),
      if_neg (by rw [h]; decide), if_neg (by rw [h]; decide),
      if_neg (by rw [h]; decide), if_pos h]
    left
    rcases hw : env.waitNew m.iter with _ | e <;> simp only [hw]
    · rcases hcfg : env.waitCfg m.iter with _ | e2 <;> simp only [hcfg]
      · exact ⟨_, rfl, rfl, fun h7 => absurd (h.symm.trans h7) (by decide),
          Or.inl rfl⟩
      · exact ⟨_, rfl, rfl, fun h7 => absurd (h.symm.trans h7) (by decide),
          Or.inl rfl⟩
    · exact ⟨_, rfl, rfl, fun h7 => absurd (h.symm.trans h7) (by decide),
        Or.inl rfl⟩
  · rw [goStep, if_neg (by rw [h]; decide), if_neg (by rw [h]; decide),
      if_neg (by rw [h]; decide), if_neg (by rw [h]; decide),
      if_neg (by rw [h]; decide), if_neg (by rw [h]; decide), if_pos h]
    left
    rcases hd : env.describeTags m.iter with e | inst <;> simp only [hd]
    · exact ⟨_, rfl, rfl, fun h7 => absurd (h.symm.trans h7) (by decide),
        Or.inl rfl⟩
    · by_cases hvd : ((riScan inst.tags "" "").1 = "" ∨
          (riScan inst.tags "" "").2 = "")
      · rw [if_pos hvd]
        exact ⟨_, rfl, rfl, fun h7 => absurd (h.symm.trans h7) (by decide),
          Or.inl rfl⟩
      · rw [if_neg hvd]
        rcases him : env.imageDigest with _ | loc <;> simp only [him]
        · exact ⟨_, rfl, rfl, fun h7 => absurd (h.symm.trans h7) (by decide),
            Or.inl rfl⟩
        · rcases hpd : env.parseDigest (riScan inst.tags "" "").2
              with _ | rem <;> simp only [hpd]
          · exact ⟨_, rfl, rfl,
              fun h7 => absurd (h.symm.trans h7) (by decide), Or.inl rfl⟩
          · by_cases heq : rem = loc
            · rw [if_pos heq]
              refine ⟨_, rfl, rfl,
                fun h7 => absurd (h.symm.trans h7) (by decide),
                Or.inr ⟨rfl, rfl, ?_⟩⟩
              push_neg at hvd
              exact ⟨inst, loc, rfl, him, hvd.1, by rw [hpd, heq]⟩
            · rw [if_neg heq]
              exact ⟨_, rfl, rfl,
                fun h7 => absurd (h.symm.trans h7) (by decide), Or.inl rfl⟩
  · rw [goStep, if_neg (by rw [h]; decide), if_neg (by rw [h]; decide),
      if_neg (by rw [h]; decide), if_neg (by rw [h]; decide),
      if_neg (by rw [h]; decide), if_neg (by rw [h]; decide),
      if_neg (by rw [h]; decide), if_pos h]
    rcases hu : env.updNew m.iter with _ | e <;> simp only [hu]
    · rcases hcf : env.cfgInstance m.iter with _ | e2 <;> simp only [hcf]
      · rcases hup : env.upload m.iter with _ | e3 <;> simp only [hup]
        · rcases hin : env.install m.iter with _ | e4 <;> simp only [hin]
          · right; exact ⟨h, rfl⟩
          · by_cases hnet : e4.isNet = true
            · rw [if_pos hnet]
              right; exact ⟨h, rfl⟩
            · rw [if_neg hnet]
              left
              exact ⟨_, rfl, rfl, fun _ => ⟨.kinded .fatal, rfl⟩,
                Or.inl rfl⟩
        · left
          exact ⟨_, rfl, rfl, fun _ => ⟨.kinded .fatal, rfl⟩, Or.inl rfl⟩
      · left
        exact ⟨_, rfl, rfl, fun _ => ⟨.kinded .fatal, rfl⟩, Or.inl rfl⟩
    · left
      exact ⟨_, rfl, rfl, fun _ => ⟨.kinded .fatal, rfl⟩, Or.inl rfl⟩

theorem goStep_stop_err (env : GoEnv) (m m1 : MachSt)
    (hlt : m.st < stateDone) (h : goStep env m = .stop m1) :
    ∃ e, m1.err = some e := by
  rcases goStep_shape env m hlt with ⟨r, hr, _, _, _⟩ | ⟨_, hr⟩
  · rw [hr] at h
    exact (epilogue_stop r m1 h).1
  · rw [hr] at h
    exact StepRes.noConfusion h

theorem goStep_next_inv (env : GoEnv) (m m1 : MachSt)
    (hlt : m.st < stateDone) (h : goStep env m = .next m1) :
    GoInv env m1 := by
  have hlt8 : m.st < 8 := hlt
  rcases goStep_shape env m hlt with ⟨r, hr, _, h7, hst⟩ | ⟨_, hr⟩
  · rw [hr] at h
    rcases epilogue_next r m1 h with ⟨hnone, hm1⟩ | ⟨e, hsome, _, _, hm1⟩
    · rcases hst with hEq | ⟨hst8, herr, hpost⟩
      · intro hd _
        subst hm1
        have hd8 : (8 : Nat) ≤ r.st + 1 := hd
        have hm7 : m.st = 7 := by omega
        obtain ⟨e, he⟩ := h7 hm7
        rw [hnone] at he
        exact Option.noConfusion he
      · intro _ _
        obtain ⟨inst, loc, hi, h2, h3, h4⟩ := hpost
        subst hm1
        exact ⟨inst, loc, hi, h2, h3, h4⟩
    · intro _ herr2
      subst hm1
      exact Option.noConfusion herr2
  · rw [hr] at h
    obtain rfl := (StepRes.next.inj h)
    intro hd _
    have hd5 : (8 : Nat) ≤ 5 := hd
    exact absurd hd5 (by decide)

theorem goStep_n_le (env : GoEnv) (m m1 : MachSt) (hlt : m.st < stateDone)
    (hn : m.n ≤ maxTries) :
    (goStep env m = .next m1 → m1.n ≤ maxTries) ∧
    (goStep env m = .stop m1 → m1.n ≤ maxTries) := by
  rcases goStep_shape env m hlt with ⟨r, hr, hrn, _, _⟩ | ⟨_, hr⟩
  · constructor
    · intro h
      rw [hr] at h
      rcases epilogue_next r m1 h with ⟨_, hm1⟩ | ⟨e, _, hne, _, hm1⟩
      · subst hm1
        exact Nat.zero_le _
      · subst hm1
        show r.n + 1 ≤ maxTries
        have h5 : r.n ≤ 5 := hrn ▸ hn
        have h5' : r.n ≠ 5 := hne
        omega
    · intro h
      rw [hr] at h
      have := (epilogue_stop r m1 h).2
      rw [this, hrn]
      exact hn
  · constructor
    · intro h
      rw [hr] at h
      obtain rfl := (StepRes.next.inj h)
      exact hn
    · intro h
      rw [hr] at h
      exact StepRes.noConfusion h

theorem goLoop_ok (env : GoEnv) :
    ∀ (fuel : Nat) (m m1 : MachSt), GoInv env m →
      goLoop env fuel m = .ok m1 → m1.err = none → GoPost env m1 := by
  intro fuel
  induction fuel with
  | zero =>
    intro m m1 _ h
    exact absurd h (by rw [goLoop]; exact fun hc => RunRes.noConfusion hc)
  | succ fuel ih =>
    intro m m1 hinv h he
    rw [goLoop] at h
    by_cases hd : stateDone ≤ m.st
    · rw [if_pos hd] at h
      obtain rfl := RunRes.ok.inj h
      exact hinv hd he
    · rw [if_neg hd] at h
      have hlt : ({ m with attempts := m.attempts ++ [m.st] } :
          MachSt).st < stateDone := Nat.lt_of_not_le hd
      rcases hstep : goStep env { m with attempts := m.attempts ++ [m.st] }
          with m2 | m2 <;> rw [hstep] at h
      · have h2 : goLoop env fuel m2 = .ok m1 := h
        exact ih m2 m1
          (goStep_next_inv env { m with attempts := m.attempts ++ [m.st] }
            m2 hlt hstep) h2 he
      · have h2 : RunRes.ok m2 = RunRes.ok m1 := h
        obtain rfl := RunRes.ok.inj h2
        obtain ⟨e, hee⟩ := goStep_stop_err env
          { m with attempts := m.attempts ++ [m.st] } m2 hlt hstep
        rw [he] at hee
        exact Option.noConfusion hee

theorem goLoop_n (env : GoEnv) :
    ∀ (fuel : Nat) (m : MachSt), m.n ≤ maxTries →
      (finalOf (goLoop env fuel m)).n ≤ maxTries := by
  intro fuel
  induction fuel with
  | zero => intro m hn; exact hn
  | succ fuel ih =>
    intro m hn
    rw [goLoop]
    by_cases hd : stateDone ≤ m.st
    · rw [if_pos hd]; exact hn
    · rw [if_neg hd]
      have hlt : ({ m with attempts := m.attempts ++ [m.st] } :
          MachSt).st < stateDone := Nat.lt_of_not_le hd
      rcases hstep : goStep env { m with attempts := m.attempts ++ [m.st] }
          with m2 | m2
      · exact ih m2
          ((goStep_n_le env { m with attempts := m.attempts ++ [m.st] } m2
            hlt hn).1 hstep)
      · exact (goStep_n_le env { m with attempts := m.attempts ++ [m.st] }
          m2 hlt hn).2 hstep

/-! ## Claim C1: the launch success postcondition -/

/-- C1: any terminating run of the launch state machine from the initial
state that ends with a nil error has described an instance whose version tag
is non-empty and whose digest tag parses to the controller-local image
digest. -/
theorem claim_C1 (env : GoEnv) (fuel : Nat) (m : MachSt)
    (h : goLoop env fuel mkInit = .ok m) (he : m.err = none) :
    GoPost env m :=
  goLoop_ok env fuel mkInit m
    (fun h8 _ => absurd h8 (by decide)) h he

/-- C1 witness: the all-success environment terminates with a nil error and
the postcondition holds for its final state. -/
theorem claim_C1_witness :
    GoPost envOK (finalOf (goLoop envOK 12 mkInit)) :=
  claim_C1 envOK 12 (finalOf (goLoop envOK 12 mkInit)) (by rfl) (by rfl)

/-! ## Claim C6: the retry policy -/

/-- C6 counterexample: with a capacity probe that always fails with a
Temporary error, the launch terminates only after the Capacity state has
been attempted six times (with the five backoff sleeps 5, 10, 20, 40, 80 s),
contradicting the claim that the same state is attempted at most
maxTries = 5 times. -/
theorem claim_C6_counterexample :
    runDone (goLoop envRetry 20 mkInit) = true ∧
    (finalOf (goLoop envRetry 20 mkInit)).attempts = [0, 0, 0, 0, 0, 0] ∧
    (finalOf (goLoop envRetry 20 mkInit)).sleeps = [5, 10, 20, 40, 80] ∧
    (finalOf (goLoop envRetry 20 mkInit)).err =
      some (.kinded .temporary) ∧
    ¬((finalOf (goLoop envRetry 20 mkInit)).attempts.count 0 ≤ maxTries) :=
  by decide

/-- C6 (amended): an error whose post-reclassification kind is Fatal or
Unavailable stops the loop at once; a retryable error below the retry limit
sleeps the current backoff, doubles it and increments the retry counter
while keeping the same state; a success resets the counter and the 5 s
backoff; at n = maxTries a further error stops the loop with that error;
capacity-exhaustion AWS codes reclassify to Unavailable; the retry counter
never exceeds maxTries = 5 (so one state is attempted at most maxTries + 1 =
6 times in a row); and the concrete always-failing run attempts the
Capacity state exactly 6 times with sleeps 5, 10, 20, 40, 80 s before
aborting with the last error. -/
theorem claim_C6_amended :
    (∀ (m : MachSt) (e : GoErr), m.err = some e →
      isAbort (reclass e) = true → ∃ m1, epilogue m = .stop m1) ∧
    (∀ (m : MachSt) (e : GoErr), m.err = some e →
      isAbort (reclass e) = false → m.n ≠ maxTries →
      epilogue m = .next { m with
        err := some (reclass e), n := m.n + 1,
        d := 2 * m.d, iter := m.iter + 1, sleeps := m.sleeps ++ [m.d] }) ∧
    (∀ (m : MachSt), m.err = none → epilogue m =
      .next { m with
        n := 0, d := 5, st := m.st + 1, iter := m.iter + 1 }) ∧
    (∀ (m : MachSt) (e : GoErr), m.err = some e → m.n = maxTries →
      epilogue m = .stop m) ∧
    (∀ code ∈ capacityCodes, reclass (.aws code) = .kinded .unavailable) ∧
    (∀ (env : GoEnv) (fuel : Nat) (m : MachSt), m.n ≤ maxTries →
      (finalOf (goLoop env fuel m)).n ≤ maxTries) ∧
    ((finalOf (goLoop envRetry 20 mkInit)).attempts = [0, 0, 0, 0, 0, 0] ∧
     (finalOf (goLoop envRetry 20 mkInit)).sleeps = [5, 10, 20, 40, 80] ∧
     (finalOf (goLoop envRetry 20 mkInit)).err =
       some (.kinded .temporary)) := by
  refine ⟨?_, ?_, ?_, ?_, ?_, goLoop_n, by decide⟩
  · intro m e he ha
    simp only [epilogue, he]
    by_cases hn : m.n = maxTries
    · rw [if_pos hn]
      exact ⟨m, rfl⟩
    · rw [if_neg hn, if_pos ha]
      exact ⟨_, rfl⟩
  · intro m e he ha hn
    simp only [epilogue, he]
    rw [if_neg hn, if_neg (by rw [ha]; exact fun hc => Bool.noConfusion hc)]
  · intro m he
    simp only [epilogue, he]
  · intro m e he hn
    simp only [epilogue, he]
    rw [if_pos hn]
  · intro code hc
    rw [reclass, if_pos hc]

/-- C6 witness: a Temporary error at the initial state takes the backoff
path, sleeping 5 s, doubling the delay and retrying the same state. -/
theorem claim_C6_witness :
    epilogue { mkInit with err := some (GoErr.kinded .temporary) } =
      .next { mkInit with
              err := some (GoErr.kinded .temporary), n := 1,
              d := 10, iter := 1, sleeps := [5] } :=
  claim_C6_amended.2.1 { mkInit with err := some (GoErr.kinded .temporary) }
    (GoErr.kinded .temporary) rfl rfl (by decide)

/-- C4 witness: at the concrete state the returned config (B at \$0.22) is
not strictly dominated by viable A (\$0.20 but lower throughput). -/
theorem claim_C4_witness :
    ¬((1 : ℚ) / 5 < 11 / 50 ∧
      (minAvailable stateAB needAB false 1000).1.ebsThroughput <
        cfgA.ebsThroughput) :=
  claim_C4 stateAB needAB false 1000 cfgA (1 / 5) (11 / 50)
    (by rw [minAvailable_scenario])
    (by simp [stateAB])
    scenAcand
    scenAprice
    (by rw [minAvailable_scenario]; exact scenBprice)

/-! ## Claim C7: the spot launch path -/

/-- C7 counterexample: the bid string is the price formatted `%.3f`, so for
a configured price of \$0.0058 the issued bid (\$0.006) differs from the
configured price — the bid is not always equal to the configured price. -/
theorem claim_C7_counterexample :
    (ec2RunSpotInstance spotEnv0 spotInstCheap).1.spotPrice ≠
      spotInstCheap.price := by
  show round3 (29 / 5000 : ℚ) ≠ 29 / 5000
  rw [round3, round_eq]
  norm_num

/-- C7 (amended): the spot request carries ValidUntil = now + 60 s and a
bid equal to the configured price rounded to three decimals (`%.3f`); the
waiter accepts `fulfilled` and `request-canceled-and-instance-running` as
success, treats the four terminal status codes as failure, and any wait
outcome other than success (the context deadline included) makes the launch
return an error of kind Unavailable. -/
theorem claim_C7_amended :
    (∀ (env : SpotEnv) (i : SpotInst),
      (ec2RunSpotInstance env i).1.validUntil = env.now + 60 ∧
      (ec2RunSpotInstance env i).1.spotPrice = round3 i.price) ∧
    (∀ (env : SpotEnv) (k fuel : Nat), k < env.ctxDeadlinePoll →
      spotSuccess (env.statusCodes k) = true →
      waitSpotAux env (fuel + 1) k = .ok) ∧
    (∀ (env : SpotEnv) (k fuel : Nat), k < env.ctxDeadlinePoll →
      spotSuccess (env.statusCodes k) = false →
      spotFailure (env.statusCodes k) = true →
      waitSpotAux env (fuel + 1) k = .failed) ∧
    (spotSuccess ["fulfilled"] = true ∧
     spotSuccess ["request-canceled-and-instance-running"] = true ∧
     spotFailure ["schedule-expired"] = true ∧
     spotFailure ["canceled-before-fulfillment"] = true ∧
     spotFailure ["bad-parameters"] = true ∧
     spotFailure ["system-error"] = true) ∧
    (∀ (env : SpotEnv) (i : SpotInst) (reqid : String),
      env.requestSpot (mkSpotParams i env.now) = .ok [reqid] →
      ¬(reqid = "") → ec2WaitForSpotFulfillment env ≠ .ok →
      (ec2RunSpotInstance env i).2 = .error (.kinded .unavailable)) := by
  refine ⟨fun env i => ⟨rfl, rfl⟩, ?_, ?_, by decide, ?_⟩
  · intro env k fuel hk hs
    rw [waitSpotAux, if_neg (Nat.not_le.mpr hk), if_pos hs]
  · intro env k fuel hk hs hf
    rw [waitSpotAux, if_neg (Nat.not_le.mpr hk)]
    rw [if_neg (by rw [hs]; exact fun hc => Bool.noConfusion hc),
      if_pos hf]
  · intro env i reqid hreq hne hwait
    show (match env.requestSpot (mkSpotParams i env.now) with
      | .error e => .error e
      | .ok reqids =>
        match reqids with
        | [rid] =>
          if rid = "" then Except.error GoErr.plain
          else
            match ec2WaitForSpotFulfillment env with
            | .ok =>
              match env.describeSpot rid with
              | .error e => .error e
              | .ok ids =>
                match ids with
                | [some id] =>
                  if id = "" then Except.error GoErr.plain else .ok id
                | [none] => Except.error GoErr.plain
                | _ => Except.error GoErr.plain
            | _ => Except.error (GoErr.kinded .unavailable)
        | _ => Except.error GoErr.plain) =
      Except.error (GoErr.kinded .unavailable)
    rw [hreq]
    show (if reqid = "" then Except.error GoErr.plain
      else match ec2WaitForSpotFulfillment env with
        | .ok =>
          match env.describeSpot reqid with
          | .error e => .error e
          | .ok ids =>
            match ids with
            | [some id] =>
              if id = "" then Except.error GoErr.plain else .ok id
            | [none] => Except.error GoErr.plain
            | _ => Except.error GoErr.plain
        | _ => Except.error (GoErr.kinded .unavailable)) =
      Except.error (GoErr.kinded .unavailable)
    rw [if_neg hne]
    rcases hw : ec2WaitForSpotFulfillment env
    · exact absurd hw hwait
    · rfl
    · rfl
    · rfl

/-- C7 witness: in the schedule-expired environment the spot launch returns
an Unavailable error. -/
theorem claim_C7_witness :
    (ec2RunSpotInstance spotEnvFail spotInst1).2 =
      .error (.kinded .unavailable) :=
  claim_C7_amended.2.2.2.2 spotEnvFail spotInst1 "sir-1" rfl (by decide)
    (by decide)

/-! ## Task store lemmas -/

theorem find?_filter_ne (r : Row) (k k' : String) (h : ¬(k' = k)) :
    (r.filter (fun p => ¬(p.1 = k))).find? (fun p => p.1 = k') =
      r.find? (fun p => p.1 = k') := by
  induction r with
  | nil => rfl
  | cons a rr ih =>
    by_cases hak : a.1 = k
    · have hak' : ¬(a.1 = k') := fun hc => h (hc.symm.trans hak)
      rw [List.filter_cons_of_neg (by simp [hak]), ih,
        List.find?_cons_of_neg _ (by simp [hak'])]
    · rw [List.filter_cons_of_pos (by simp [hak])]
      by_cases hak' : a.1 = k'
      · rw [List.find?_cons_of_pos _ (by simp [hak']),
          List.find?_cons_of_pos _ (by simp [hak'])]
      · rw [List.find?_cons_of_neg _ (by simp [hak']),
          List.find?_cons_of_neg _ (by simp [hak']), ih]

theorem rattr_rset_same (r : Row) (k : String) (v : AttrVal) :
    rattr (rset r k v) k = some v := by
  simp [rattr, rset]

theorem rattr_rset_other (r : Row) (k k' : String) (v : AttrVal)
    (h : ¬(k' = k)) : rattr (rset r k v) k' = rattr r k' := by
  rw [rattr, rattr, rset,
    List.find?_cons_of_neg _ (by simpa using fun hc : k = k' => h hc.symm),
    find?_filter_ne r k k' h]

theorem putItem_mem (tbl : Table) (row r : Row) (h : r ∈ putItem tbl row) :
    r = row ∨ r ∈ tbl := by
  rcases List.mem_cons.mp h with h1 | h1
  · left; exact h1
  · right; exact List.mem_of_mem_filter h1

theorem updateRows_mem (tbl : Table) (id : String)
    (sets : List (String × AttrVal)) (r : Row)
    (h : r ∈ updateRows tbl id sets) :
    (∃ r0, r0 ∈ tbl ∧ rowId r0 = some id ∧
      r = sets.foldl (fun rr kv => rset rr kv.1 kv.2) r0) ∨
    (r ∈ tbl ∧ ¬(rowId r = some id)) ∨
    r = sets.foldl (fun rr kv => rset rr kv.1 kv.2) [("ID", .s id)] := by
  rw [updateRows] at h
  by_cases hex : (tbl.any (fun rr => rowId rr = some id)) = true
  · rw [if_pos hex] at h
    obtain ⟨r0, hr0, hfr⟩ := List.mem_map.mp h
    by_cases hid : rowId r0 = some id
    · left
      exact ⟨r0, hr0, hid, by rw [← hfr, if_pos hid]⟩
    · right; left
      have : r = r0 := by rw [← hfr, if_neg hid]
      rw [this]
      exact ⟨hr0, hid⟩
  · rw [if_neg hex] at h
    rcases List.mem_append.mp h with h1 | h1
    · right; left
      refine ⟨h1, ?_⟩
      intro hc
      apply hex
      rw [List.any_eq_true]
      exact ⟨r, h1, by simp [hc]⟩
    · right; right
      exact List.mem_singleton.mp h1

theorem keepalive_apply_attrs (r0 : Row) (t : Int) :
    rattr ((keepaliveSets t).foldl (fun rr kv => rset rr kv.1 kv.2) r0)
      "Keepalive" = some (.time t) ∧
    rattr ((keepaliveSets t).foldl (fun rr kv => rset rr kv.1 kv.2) r0)
      "Date" = some (.date (dateOf t)) := by
  show rattr (rset (rset r0 "Keepalive" (.time t)) "Date"
    (.date (dateOf t))) "Keepalive" = some (.time t) ∧
    rattr (rset (rset r0 "Keepalive" (.time t)) "Date"
    (.date (dateOf t))) "Date" = some (.date (dateOf t))
  constructor
  · rw [rattr_rset_other _ _ _ _ (by decide), rattr_rset_same]
  · rw [rattr_rset_same]

theorem keepaliveOp_attrs (tbl : Table) (id : String) (t : Int) (r : Row)
    (hr : r ∈ keepaliveOp tbl id t) (hid : rowId r = some id) :
    rattr r "Keepalive" = some (.time t) ∧
    rattr r "Date" = some (.date (dateOf t)) := by
  rcases updateRows_mem tbl id (keepaliveSets t) r hr with
    ⟨r0, _, _, hfr⟩ | ⟨_, hnid⟩ | hfr
  · rw [hfr]
    exact keepalive_apply_attrs r0 t
  · exact absurd hid hnid
  · rw [hfr]
    exact keepalive_apply_attrs _ t

theorem mem_dates (beg endd x : Int) (h1 : dateOf beg ≤ x)
    (h2 : x ≤ dateOf endd) : x ∈ dates beg endd := by
  have hx : x = dateOf beg + ((x - dateOf beg).toNat : Int) := by omega
  have hn : (x - dateOf beg).toNat <
      (dateOf endd - dateOf beg + 1).toNat := by omega
  rw [dates, hx]
  exact List.mem_map_of_mem (fun k : Nat => dateOf beg + (k : Int))
    (List.mem_range.mpr hn)

theorem buildQueries_since (q : TQuery) (since now : Int)
    (hid : q.id = none) (_hrid : q.runId = none) (hs : q.since = some since)
    (hu : q.user = "") (hne : dateOf since ≤ dateOf now) :
    buildQueries q "task" now = some ((dates since now).map (fun d =>
      { index := "Date-Keepalive-index", keyCond := KeyCond.dateKa d since,
        filterUser := none, filterType := none })) := by
  rw [buildQueries]
  rw [if_neg (fun hc => hc hid)]
  rw [if_neg (fun hc => absurd hc.2 (by decide))]
  simp only [hs, hu]
  rw [if_pos (show True from trivial)]
  rw [if_neg (show ¬("task" = "run") from by decide)]
  have hbs : ¬(((dates since now).map (fun d =>
      ({ index := "Date-Keepalive-index", keyCond := KeyCond.dateKa d since,
         filterUser := none, filterType := none } : QueryInput))).isEmpty =
      true) := by
    simp only [List.isEmpty_eq_true, List.map_eq_nil_iff]
    exact List.ne_nil_of_mem
      (mem_dates since now (dateOf since) (le_refl _) hne)
  rw [if_neg hbs]

/-! ## Claim C8: Keepalive and the time-bucket queries -/

/-- C8 counterexample: after Keepalive(id, t) with t = 100, a Tasks query
with Since = t (which satisfies Since ≤ t) returns nothing, because the
built key condition requires `Keepalive > :ka` strictly; the updated row is
in the table but not in the result. -/
theorem claim_C8_counterexample :
    tasksOp (keepaliveOp (createTask [] "abcd1111" "beef2222" "ff" "uri"
        ["l=1"] 0) "abcd1111" 100)
      { id := none, idAbbrev := false, runId := none, since := some 100,
        user := "" } 150 = some [] ∧
    (keepaliveOp (createTask [] "abcd1111" "beef2222" "ff" "uri" ["l=1"] 0)
      "abcd1111" 100).any
        (fun r => rowId r = some "abcd1111") = true := by
  decide

/-- C8 (amended): Keepalive(id, t) writes both the Keepalive attribute (t)
and the Date attribute (date(t)) in its single update, and a subsequent
Tasks time-bucket query with Since strictly less than t — and with date(t)
not after date(now), so that the bucket of t is enumerated — returns every
updated row for id. -/
theorem claim_C8_amended (tbl : Table) (id : String) (t since now : Int)
    (hlt : since < t) (hdn : dateOf t ≤ dateOf now) (r : Row)
    (hr : r ∈ keepaliveOp tbl id t) (hid : rowId r = some id) :
    rattr r "Keepalive" = some (.time t) ∧
    rattr r "Date" = some (.date (dateOf t)) ∧
    r ∈ (tasksOp (keepaliveOp tbl id t)
      { id := none, idAbbrev := false, runId := none, since := some since,
        user := "" } now).getD [] := by
  obtain ⟨hka, hdate⟩ := keepaliveOp_attrs tbl id t r hr hid
  refine ⟨hka, hdate, ?_⟩
  have hmono : dateOf since ≤ dateOf t := by
    rw [dateOf, dateOf]
    omega
  have hq : tasksOp (keepaliveOp tbl id t)
      { id := none, idAbbrev := false, runId := none, since := some since,
        user := "" } now =
      some (evalQueries (keepaliveOp tbl id t) ((dates since now).map
        (fun d => { index := "Date-Keepalive-index",
                    keyCond := KeyCond.dateKa d since, filterUser := none,
                    filterType := none }))) := by
    show (buildQueries
        { id := none, idAbbrev := false, runId := none,
          since := some since, user := "" } "task" now).map
        (evalQueries (keepaliveOp tbl id t)) = _
    rw [buildQueries_since _ since now rfl rfl rfl rfl
      (le_trans hmono hdn)]
    rfl
  rw [hq, Option.getD_some, evalQueries]
  apply List.mem_flatten.mpr
  refine ⟨evalQuery (keepaliveOp tbl id t)
    { index := "Date-Keepalive-index",
      keyCond := KeyCond.dateKa (dateOf t) since, filterUser := none,
      filterType := none }, ?_, ?_⟩
  · exact List.mem_map.mpr ⟨_, List.mem_map.mpr ⟨dateOf t,
      mem_dates since now (dateOf t) hmono hdn, rfl⟩, rfl⟩
  · rw [evalQuery]
    refine List.mem_filter.mpr ⟨hr, ?_⟩
    simp [matchKey, matchFilters, hdate, hka, hlt]

/-- C8 witness: with Since = 99 strictly below the keepalive time t = 100
and now = 150 in the same day bucket, the updated row is returned. -/
theorem claim_C8_witness :
    ((keepaliveOp (createTask [] "abcd1111" "beef2222" "ff" "uri" ["l=1"] 0)
        "abcd1111" 100).headD []) ∈
      (tasksOp (keepaliveOp (createTask [] "abcd1111" "beef2222" "ff" "uri"
          ["l=1"] 0) "abcd1111" 100)
        { id := none, idAbbrev := false, runId := none, since := some 99,
          user := "" } 150).getD [] :=
  (claim_C8_amended (createTask [] "abcd1111" "beef2222" "ff" "uri" ["l=1"]
      0) "abcd1111" 100 99 150 (by decide) (by decide) _ (by decide)
      (by decide)).2.2

/-! ## Claim C9: the row invariant -/

theorem RowInv_fresh (r : Row) (id : String)
    (hID : rattr r "ID" = some (.s id))
    (hID4 : rattr r "ID4" = some (.s (id.take 4)))
    (hka : rattr r "Keepalive" = none) : RowInv r := by
  constructor
  · intro i4 idv h1 h2
    rw [hID4] at h1
    rw [hID] at h2
    simp only [Option.some.injEq, AttrVal.s.injEq] at h1 h2
    rw [← h1, ← h2]
  · intro ka st h3 _
    rw [hka] at h3
    exact Option.noConfusion h3

theorem RowInv_noID4 (r : Row)
    (hID4 : rattr r "ID4" = none)
    (hka : rattr r "Keepalive" = none) : RowInv r := by
  constructor
  · intro i4 idv h1 _
    rw [hID4] at h1
    exact Option.noConfusion h1
  · intro ka st h3 _
    rw [hka] at h3
    exact Option.noConfusion h3

theorem RowInv_rset (r : Row) (k : String) (v : AttrVal)
    (h1 : ¬("ID4" = k)) (h2 : ¬("ID" = k)) (h3 : ¬("Keepalive" = k))
    (h4 : ¬("StartTime" = k)) (h : RowInv r) : RowInv (rset r k v) := by
  constructor
  · intro i4 idv ha hb
    rw [rattr_rset_other r k _ v h1] at ha
    rw [rattr_rset_other r k _ v h2] at hb
    exact h.1 i4 idv ha hb
  · intro ka st ha hb
    rw [rattr_rset_other r k _ v h3] at ha
    rw [rattr_rset_other r k _ v h4] at hb
    exact h.2 ka st ha hb

/-- C9 counterexample: a task row created with StartTime 100 and then
Keepalive(id, 50) violates keepalive at-least startTime: the invariant is
not preserved by Keepalive with an arbitrary time argument. -/
theorem claim_C9_counterexample :
    ((keepaliveOp (createTask [] "abcd1111" "beef2222" "ff" "uri" ["l=1"]
        100) "abcd1111" 50).headD []) ∈
      keepaliveOp (createTask [] "abcd1111" "beef2222" "ff" "uri" ["l=1"]
        100) "abcd1111" 50 ∧
    rattr ((keepaliveOp (createTask [] "abcd1111" "beef2222" "ff" "uri"
      ["l=1"] 100) "abcd1111" 50).headD []) "Keepalive" =
        some (.time 50) ∧
    rattr ((keepaliveOp (createTask [] "abcd1111" "beef2222" "ff" "uri"
      ["l=1"] 100) "abcd1111" 50).headD []) "StartTime" =
        some (.time 100) ∧
    ¬ RowInv ((keepaliveOp (createTask [] "abcd1111" "beef2222" "ff" "uri"
      ["l=1"] 100) "abcd1111" 50).headD []) := by
  refine ⟨by decide, by decide, by decide, ?_⟩
  rintro ⟨_, h2⟩
  have h3 := h2 50 100 (by decide) (by decide)
  omega

/-- C9 (amended): all five operations preserve the row invariant (ID4 is
the 4-hex prefix of ID and keepalive is at least startTime), with the one
caveat forced by the counterexample: Keepalive(id, t) preserves it only
when t is at least the StartTime of every row with that id.  A row freshly
created by CreateTask has the correct ID4 and carries no Keepalive
attribute at all (so the keepalive clause holds vacuously rather than as
claimed). -/
theorem claim_C9_amended :
    (∀ (tbl : Table) (id : String) (labels : List String) (user : String)
      (now : Int), (∀ r ∈ tbl, RowInv r) →
      ∀ r ∈ createRun tbl id labels user now, RowInv r) ∧
    (∀ (tbl : Table) (id runid flowid uri : String)
      (labels : List String) (now : Int), (∀ r ∈ tbl, RowInv r) →
      ∀ r ∈ createTask tbl id runid flowid uri labels now, RowInv r) ∧
    (∀ (tbl : Table) (id result : String), (∀ r ∈ tbl, RowInv r) →
      ∀ r ∈ setTaskResult tbl id result, RowInv r) ∧
    (∀ (tbl : Table) (id stdout stderr inspect : String),
      (∀ r ∈ tbl, RowInv r) →
      ∀ r ∈ setTaskAttrs tbl id stdout stderr inspect, RowInv r) ∧
    (∀ (tbl : Table) (id : String) (t : Int), (∀ r ∈ tbl, RowInv r) →
      (∀ r ∈ tbl, rowId r = some id → ∀ st,
        rattr r "StartTime" = some (.time st) → st ≤ t) →
      ∀ r ∈ keepaliveOp tbl id t, RowInv r) ∧
    (∀ (id runid flowid uri : String) (labels : List String) (now : Int)
      (r : Row), r ∈ createTask [] id runid flowid uri labels now →
      rattr r "Keepalive" = none ∧
      rattr r "ID4" = some (.s (id.take 4))) := by
  refine ⟨?_, ?_, ?_, ?_, ?_, ?_⟩
  · intro tbl id labels user now hinv r hr
    rcases putItem_mem tbl _ r hr with h1 | h1
    · rw [h1]
      exact RowInv_fresh _ id rfl rfl rfl
    · exact hinv r h1
  · intro tbl id runid flowid uri labels now hinv r hr
    rcases putItem_mem tbl _ r hr with h1 | h1
    · rw [h1]
      exact RowInv_fresh _ id rfl rfl rfl
    · exact hinv r h1
  · intro tbl id result hinv r hr
    rcases updateRows_mem tbl id _ r hr with
      ⟨r0, hr0, _, hfr⟩ | ⟨h1, _⟩ | hfr
    · rw [hfr]
      exact RowInv_rset r0 "ResultID" _ (by decide) (by decide) (by decide)
        (by decide) (hinv r0 hr0)
    · exact hinv r h1
    · rw [hfr]
      exact RowInv_noID4 _ rfl rfl
  · intro tbl id stdout stderr inspect hinv r hr
    rcases updateRows_mem tbl id _ r hr with
      ⟨r0, hr0, _, hfr⟩ | ⟨h1, _⟩ | hfr
    · rw [hfr]
      show RowInv (rset (rset (rset r0 "Stdout" (.s stdout)) "Stderr"
        (.s stderr)) "Inspect" (.s inspect))
      refine RowInv_rset _ "Inspect" _ (by decide) (by decide) (by decide)
        (by decide) ?_
      refine RowInv_rset _ "Stderr" _ (by decide) (by decide) (by decide)
        (by decide) ?_
      exact RowInv_rset _ "Stdout" _ (by decide) (by decide) (by decide)
        (by decide) (hinv r0 hr0)
    · exact hinv r h1
    · rw [hfr]
      exact RowInv_noID4 _ rfl rfl
  · intro tbl id t hinv hstart r hr
    rcases updateRows_mem tbl id _ r hr with
      ⟨r0, hr0, hid0, hfr⟩ | ⟨h1, _⟩ | hfr
    · constructor
      · intro i4 idv ha hb
        rw [hfr] at ha hb
        have e1 : rattr ((keepaliveSets t).foldl
            (fun rr kv => rset rr kv.1 kv.2) r0) "ID4" =
            rattr r0 "ID4" := by
          show rattr (rset (rset r0 "Keepalive" (.time t)) "Date"
            (.date (dateOf t))) "ID4" = rattr r0 "ID4"
          rw [rattr_rset_other _ _ _ _ (by decide),
            rattr_rset_other _ _ _ _ (by decide)]
        have e2 : rattr ((keepaliveSets t).foldl
            (fun rr kv => rset rr kv.1 kv.2) r0) "ID" =
            rattr r0 "ID" := by
          show rattr (rset (rset r0 "Keepalive" (.time t)) "Date"
            (.date (dateOf t))) "ID" = rattr r0 "ID"
          rw [rattr_rset_other _ _ _ _ (by decide),
            rattr_rset_other _ _ _ _ (by decide)]
        rw [e1] at ha
        rw [e2] at hb
        exact (hinv r0 hr0).1 i4 idv ha hb
      · intro ka st ha hb
        rw [hfr] at ha hb
        have e3 := (keepalive_apply_attrs r0 t).1
        rw [e3] at ha
        simp only [Option.some.injEq, AttrVal.time.injEq] at ha
        have e4 : rattr ((keepaliveSets t).foldl
            (fun rr kv => rset rr kv.1 kv.2) r0) "StartTime" =
            rattr r0 "StartTime" := by
          show rattr (rset (rset r0 "Keepalive" (.time t)) "Date"
            (.date (dateOf t))) "StartTime" = rattr r0 "StartTime"
          rw [rattr_rset_other _ _ _ _ (by decide),
            rattr_rset_other _ _ _ _ (by decide)]
        rw [e4] at hb
        rw [← ha]
        exact hstart r0 hr0 hid0 st hb
    · exact hinv r h1
    · rw [hfr]
      constructor
      · intro i4 idv ha _
        have e5 : rattr ((keepaliveSets t).foldl
            (fun rr kv => rset rr kv.1 kv.2) [("ID", .s id)]) "ID4" =
            none := rfl
        rw [e5] at ha
        exact Option.noConfusion ha
      · intro ka st _ hb
        have e6 : rattr ((keepaliveSets t).foldl
            (fun rr kv => rset rr kv.1 kv.2) [("ID", .s id)])
            "StartTime" = none := rfl
        rw [e6] at hb
        exact Option.noConfusion hb
  · intro id runid flowid uri labels now r hr
    rcases putItem_mem [] _ r hr with h1 | h1
    · rw [h1]
      exact ⟨rfl, rfl⟩
    · exact absurd h1 (List.not_mem_nil r)

/-- C9 witness: concretely, the freshly created task row for id abcd1111
has no Keepalive attribute and ID4 = abcd, and after Keepalive at time 100
(which is at least the StartTime 0) the updated row satisfies the
invariant. -/
theorem claim_C9_witness :
    rattr ((createTask [] "abcd1111" "beef2222" "ff" "uri" ["l=1"]
        0).headD []) "Keepalive" = none ∧
    rattr ((createTask [] "abcd1111" "beef2222" "ff" "uri" ["l=1"]
        0).headD []) "ID4" = some (.s "abcd") ∧
    RowInv ((keepaliveOp (createTask [] "abcd1111" "beef2222" "ff" "uri"
      ["l=1"] 0) "abcd1111" 100).headD []) := by
  have h6 := claim_C9_amended.2.2.2.2.2 "abcd1111" "beef2222" "ff" "uri"
    ["l=1"] 0 ((createTask [] "abcd1111" "beef2222" "ff" "uri" ["l=1"]
      0).headD []) (by decide)
  refine ⟨h6.1, h6.2.trans (by decide), ?_⟩
  refine claim_C9_amended.2.2.2.2.1
    (createTask [] "abcd1111" "beef2222" "ff" "uri" ["l=1"] 0) "abcd1111"
    100 ?_ ?_ _ (by decide)
  · intro r hr
    exact claim_C9_amended.2.1 [] "abcd1111" "beef2222" "ff" "uri" ["l=1"]
      0 (fun r2 hr2 => absurd hr2 (List.not_mem_nil r2)) r hr
  · intro r hr hid st hst
    rcases List.mem_cons.mp hr with h | h
    · rw [h] at hst
      have h0 : some (AttrVal.time 0) = some (.time st) := hst
      simp only [Option.some.injEq, AttrVal.time.injEq] at h0
      omega
    · exact absurd h (List.not_mem_nil r)

/-! ## Claim C10: the future-Since degenerate query -/

/-- C10: when the query has no ID and no RunID and Since lies in a strictly
later day bucket than now, dates(since, now) is empty, buildQueries (for
both task and run kinds) falls through with the key condition still unset,
and Tasks issues that single degenerate query against the
Date-Keepalive-index. -/
theorem claim_C10 (q : TQuery) (since now : Int) (hid : q.id = none)
    (hrid : q.runId = none) (hs : q.since = some since)
    (hfut : dateOf now < dateOf since) :
    dates since now = [] ∧
    buildQueries q "task" now =
      some [{ index := "Date-Keepalive-index", keyCond := KeyCond.unset,
              filterUser := if q.user = "" then none else some q.user,
              filterType := none }] ∧
    buildQueries q "run" now =
      some [{ index := "Date-Keepalive-index", keyCond := KeyCond.unset,
              filterUser := if q.user = "" then none else some q.user,
              filterType := some "run" }] ∧
    (∀ tbl : Table, tasksOp tbl q now = some (evalQueries tbl
      [{ index := "Date-Keepalive-index", keyCond := KeyCond.unset,
         filterUser := if q.user = "" then none else some q.user,
         filterType := none }])) := by
  have hd : dates since now = [] := by
    rw [dates]
    have h0 : (dateOf now - dateOf since + 1).toNat = 0 := by omega
    rw [h0]
    rfl
  have htask : buildQueries q "task" now =
      some [{ index := "Date-Keepalive-index", keyCond := KeyCond.unset,
              filterUser := if q.user = "" then none else some q.user,
              filterType := none }] := by
    rw [buildQueries]
    rw [if_neg (fun hc => hc hid)]
    rw [if_neg (fun hc => absurd hc.2 (by decide))]
    simp only [hs]
    rw [hd]
    rfl
  refine ⟨hd, htask, ?_, ?_⟩
  · rw [buildQueries]
    rw [if_neg (fun hc => hc hid)]
    rw [if_neg (fun hc => absurd hc.1 (by rw [hrid]; exact fun h => h rfl))]
    simp only [hs]
    rw [hd]
    rfl
  · intro tbl
    have hrw : tasksOp tbl q now =
        (buildQueries q "task" now).map (evalQueries tbl) := by
      simp only [tasksOp, hrid]
    rw [hrw, htask]
    rfl

/-- C10 witness: with Since two days in the future of now = 0, the date
list is empty and the built task query is the single degenerate query with
the key condition unset and the user filter set. -/
theorem claim_C10_witness :
    dates 172800 0 = [] ∧
    buildQueries
      { id := none, idAbbrev := false, runId := none,
        since := some 172800, user := "u1" } "task" 0 =
      some [{ index := "Date-Keepalive-index", keyCond := KeyCond.unset,
              filterUser := some "u1", filterType := none }] := by
  have h := claim_C10
    { id := none, idAbbrev := false, runId := none,
      since := some 172800, user := "u1" } 172800 0 rfl rfl rfl (by decide)
  refine ⟨h.1, ?_⟩
  rw [h.2.1]
  rfl

end Reflow
